import Mathlib

/-!
Verification development for the Literature-Agent repository.

This file gives a shallow embedding, in Lean 4, of the core components of the
repository: the CSV paper ledger (`src/dedupe/ledger.py`), title normalisation
(`src/dedupe/normalise.py`), the reflection (critic/reviser) controller
(`src/agents/reflection.py`), and the orchestrating pipeline's volume-adaptive
retrieval loop and persistence sequencing (`src/agents/pipeline.py`).

Python values that can flow through the ledger rows (`str`, `int`, `None`) are
modelled by the `PyVal` type.  The `csv` module's `DictWriter`/`DictReader`
pair is modelled at the level of records (lists of string cells in the fixed
`FIELDNAMES` order, with the header row implicit): `DictWriter.writerow`
renders each value with Python's `str()` (and `None` as the empty string), and
`DictReader` yields every cell back as a string.  Byte-level CSV quoting is the
`csv` library's concern and is treated as an exact inverse pair, which it is
for the strings that occur here.
-/

namespace LitAgent

/-- Model of a Python value as stored in a ledger row dictionary:
a string, an integer (e.g. the `year` field of `to_dict()`), or `None`. -/
inductive PyVal where
  | vnone : PyVal
  | vstr (s : String) : PyVal
  | vint (n : Int) : PyVal
deriving DecidableEq, Repr

/-- How Python's `csv.writer` renders a value into a CSV cell:
`None` becomes the empty string, other values go through `str()`. -/
def PyVal.toCell : PyVal → String
  | .vnone => ""
  | .vstr s => s
  | .vint n => toString n

/-- Python truthiness of a ledger-row value (used by `_load`'s
`if canonical_id:` check): `None` and `""` and `0` are falsy. -/
def PyVal.truthy : PyVal → Bool
  | .vnone => false
  | .vstr s => s ≠ ""
  | .vint n => n ≠ 0

/-- A Python dict of paper metadata (`paper.to_dict()`): a partial map from
keys to values; `none` means the key is absent.  `dict.get(k)` returns `None`
for an absent key and `dict.get(k, d)` returns `d`. -/
def PaperDict : Type := String → Option PyVal

/-- `paper_dict.get(k)` (default `None`). -/
def PaperDict.get (d : PaperDict) (k : String) : PyVal :=
  (d k).getD .vnone

/-- `paper_dict.get(k, default)`. -/
def PaperDict.getD (d : PaperDict) (k : String) (dflt : PyVal) : PyVal :=
  (d k).getD dflt

namespace PaperLedger

/-- `PaperLedger.FIELDNAMES`: the fixed CSV column order. -/
def FIELDNAMES : List String :=
  ["canonical_id", "source", "arxiv_id", "doi", "title", "authors", "venue",
   "year", "url", "discovered_date", "processed_date", "model_name",
   "abstract_rewrite", "problem_solved", "linkedin_post"]

/-- One ledger row: the dict built by `add_entry` (or read back by
`DictReader`), with one slot per `FIELDNAMES` column. -/
structure Entry where
  canonical_id : PyVal
  source : PyVal
  arxiv_id : PyVal
  doi : PyVal
  title : PyVal
  authors : PyVal
  venue : PyVal
  year : PyVal
  url : PyVal
  discovered_date : PyVal
  processed_date : PyVal
  model_name : PyVal
  abstract_rewrite : PyVal
  problem_solved : PyVal
  linkedin_post : PyVal
deriving DecidableEq, Repr

/-- The entry dict literal built inside `PaperLedger.add_entry`:
`canonical_id`/`source`/`title` via `paper_dict.get(k)` (no default),
the optional metadata fields via `paper_dict.get(k, "")`, both date stamps
set to the same `now = datetime.now().isoformat()` string, and the four
generation arguments stored verbatim. -/
def mkEntry (paper_dict : PaperDict) (now model_name abstract_rewrite
    problem_solved linkedin_post : String) : Entry where
  canonical_id := paper_dict.get "canonical_id"
  source := paper_dict.get "source"
  arxiv_id := paper_dict.getD "arxiv_id" (.vstr "")
  doi := paper_dict.getD "doi" (.vstr "")
  title := paper_dict.get "title"
  authors := paper_dict.getD "authors" (.vstr "")
  venue := paper_dict.getD "venue" (.vstr "")
  year := paper_dict.getD "year" (.vstr "")
  url := paper_dict.getD "url" (.vstr "")
  discovered_date := .vstr now
  processed_date := .vstr now
  model_name := .vstr model_name
  abstract_rewrite := .vstr abstract_rewrite
  problem_solved := .vstr problem_solved
  linkedin_post := .vstr linkedin_post

/-- In-memory state of a `PaperLedger`: `self.processed_ids` (a set, modelled
as a list queried by membership) and `self.ledger_rows`. -/
structure State where
  processed_ids : List PyVal
  ledger_rows : List Entry
deriving DecidableEq, Repr

/-- The fresh, empty ledger state (`processed_ids = set()`, `ledger_rows = []`). -/
def State.empty : State := ⟨[], []⟩

/-- `PaperLedger.is_processed(canonical_id)`: set membership in
`self.processed_ids`. -/
def is_processed (st : State) (canonical_id : PyVal) : Bool :=
  canonical_id ∈ st.processed_ids

/-- `PaperLedger.add_entry`: build the entry dict, append it to
`self.ledger_rows`, and add `entry["canonical_id"]` to `self.processed_ids`. -/
def add_entry (st : State) (paper_dict : PaperDict) (now model_name
    abstract_rewrite problem_solved linkedin_post : String) : State :=
  let entry := mkEntry paper_dict now model_name abstract_rewrite
    problem_solved linkedin_post
  { processed_ids := entry.canonical_id :: st.processed_ids
    ledger_rows := st.ledger_rows ++ [entry] }

/-- The cells `csv.DictWriter.writerow` emits for one entry, in
`FIELDNAMES` order (`None` rendered as `""`, ints via `str()`). -/
def entryCells (e : Entry) : List String :=
  [e.canonical_id.toCell, e.source.toCell, e.arxiv_id.toCell, e.doi.toCell,
   e.title.toCell, e.authors.toCell, e.venue.toCell, e.year.toCell,
   e.url.toCell, e.discovered_date.toCell, e.processed_date.toCell,
   e.model_name.toCell, e.abstract_rewrite.toCell, e.problem_solved.toCell,
   e.linkedin_post.toCell]

/-- The table `PaperLedger.save` serialises: `writer.writerows(self.ledger_rows)`
after `writer.writeheader()` (the `FIELDNAMES` header row is implicit in this
record-level model). -/
def saveRecords (st : State) : List (List String) :=
  st.ledger_rows.map entryCells

/-- The row dict `csv.DictReader` yields for one record under the
`FIELDNAMES` header: cell `i` (a string) under field `i`; a missing cell
(short row) appears as the `restval` `None`. -/
def loadEntry (cells : List String) : Entry :=
  let f : Nat → PyVal := fun i => ((cells.get? i).map PyVal.vstr).getD .vnone
  { canonical_id := f 0, source := f 1, arxiv_id := f 2, doi := f 3,
    title := f 4, authors := f 5, venue := f 6, year := f 7, url := f 8,
    discovered_date := f 9, processed_date := f 10, model_name := f 11,
    abstract_rewrite := f 12, problem_solved := f 13, linkedin_post := f 14 }

/-- The loop body of `PaperLedger._load`: every row is appended to
`self.ledger_rows`, and its `canonical_id` is added to `self.processed_ids`
only when truthy (`if canonical_id:`). -/
def loadState (records : List (List String)) : State :=
  let rows := records.map loadEntry
  { processed_ids :=
      rows.filterMap fun r =>
        if r.canonical_id.truthy then some r.canonical_id else none
    ledger_rows := rows }

/-- What the constructor finds at `self.ledger_path`: no file, a parsable CSV
table (records under the `FIELDNAMES` header), or a file whose read/parse
raises inside the external csv/IO machinery. -/
inductive FileState where
  | absent : FileState
  | table (records : List (List String)) : FileState
  | corrupt : FileState
deriving DecidableEq, Repr

/-- The error `_load` re-raises after logging when reading an existing
ledger file fails. -/
inductive LoadError where
  | loadFailure : LoadError
deriving DecidableEq, Repr

/-- `PaperLedger.__init__` / `_load`: a missing file yields the empty ledger
(no error); a parsable table is loaded row by row; an unreadable existing
file makes construction raise. -/
def init : FileState → Except LoadError State
  | .absent => .ok State.empty
  | .table records => .ok (loadState records)
  | .corrupt => .error .loadFailure

/-- `PaperLedger.get_new_papers_count`: the number of rows whose
`processed_date` equals (`==`) their `discovered_date`. -/
def get_new_papers_count (st : State) : Nat :=
  (st.ledger_rows.filter fun r => r.processed_date == r.discovered_date).length

end PaperLedger

namespace Reflection

/-- `ReflectionState`: the TypedDict threaded through the LangGraph
reflection graph (the unused `messages` channel is omitted).  The quality
score (a Python float compared against `8.0`) is modelled as a rational. -/
structure RState where
  title : String
  authors : String
  venue : String
  year : Int
  abstract : String
  abstract_rewrite : String
  problem_solved : String
  linkedin_post : String
  critique : String
  revision_actions : List String
  iteration : Nat
  max_iterations : Nat
  score : Rat
deriving DecidableEq, Repr

/-- Result of `_critic_node`'s defensive extraction of the structured critique
from the raw model text (the regex span / fence-stripping followed by
`json.loads` is the external parsing machinery): either a parsed payload
(the extracted `json_str`, the `revision_actions` list and `overall_score`,
both already defaulted per `critique_data.get`), or a parse failure carrying
the raw response text. -/
inductive CriticResponse where
  | parsed (json_str : String) (revision_actions : List String) (overall_score : Rat)
  | malformed (raw : String)

/-- Result of `_reviser_node`'s parse of the revised-output payload: for each
of the three text fields, `revised_data.get(key, state[key])` keeps the
pre-revision value when the key is absent (`none`); or a parse failure. -/
inductive ReviserResponse where
  | parsed (abstract_rewrite problem_solved linkedin_post : Option String)
  | malformed (raw : String)

/-- `ReflectionAgent._critic_node`: on a parsed critique, store the extracted
payload span as `critique`, the action list and the score; on a parse
failure, keep the raw text as `critique` and fall back to score `8.0` with an
empty action list. -/
def critic_node (resp : CriticResponse) (s : RState) : RState :=
  match resp with
  | .parsed json_str actions score =>
      { s with critique := json_str, revision_actions := actions, score := score }
  | .malformed raw =>
      { s with critique := raw, revision_actions := [], score := 8 }

/-- The two labels `_should_revise` can return. -/
inductive Decision where
  | revise : Decision
  | accept : Decision
deriving DecidableEq, Repr

/-- `ReflectionAgent._should_revise`: accept when `score >= 8.0` or
`iteration >= max_iterations`, otherwise revise. -/
def should_revise (s : RState) : Decision :=
  if 8 ≤ s.score ∨ s.max_iterations ≤ s.iteration then .accept else .revise

/-- `ReflectionAgent._reviser_node`: on a parsed payload, each text field is
replaced by `revised_data.get(key, state[key])`; on a parse failure the draft
fields are kept.  The iteration counter is incremented regardless. -/
def reviser_node (resp : ReviserResponse) (s : RState) : RState :=
  let s' :=
    match resp with
    | .parsed ar ps lp =>
        { s with abstract_rewrite := ar.getD s.abstract_rewrite
                 problem_solved := ps.getD s.problem_solved
                 linkedin_post := lp.getD s.linkedin_post }
    | .malformed _ => s
  { s' with iteration := s'.iteration + 1 }

/-- The `initial_state` dict built inside `reflect()`. -/
def initialState (title authors venue : String) (year : Int)
    (abstract abstract_rewrite problem_solved linkedin_post : String)
    (max_iterations : Nat) : RState where
  title := title
  authors := authors
  venue := venue
  year := year
  abstract := abstract
  abstract_rewrite := abstract_rewrite
  problem_solved := problem_solved
  linkedin_post := linkedin_post
  critique := ""
  revision_actions := []
  iteration := 0
  max_iterations := max_iterations
  score := 0

/-- `ReflectionAgent.reflect` over the compiled graph of `_build_graph`:
entry point `critic`, then the conditional edge (`_should_revise`) leads
either to `END` (accept) or to `reviser`, and `reviser` leads
unconditionally to `END`.  Returns the final state together with the number
of times the reviser capability was invoked.  The critic/reviser model
responses are the two external generation results. -/
def reflect (criticResp : CriticResponse) (reviserResp : ReviserResponse)
    (title authors venue : String) (year : Int)
    (abstract abstract_rewrite problem_solved linkedin_post : String)
    (max_iterations : Nat) : RState × Nat :=
  match should_revise (critic_node criticResp (initialState title authors venue
    year abstract abstract_rewrite problem_solved linkedin_post
    max_iterations)) with
  | .accept =>
    (critic_node criticResp (initialState title authors venue year abstract
      abstract_rewrite problem_solved linkedin_post max_iterations), 0)
  | .revise =>
    (reviser_node reviserResp (critic_node criticResp (initialState title
      authors venue year abstract abstract_rewrite problem_solved
      linkedin_post max_iterations)), 1)

/-- The tuple `reflect()` returns:
`(abstract_rewrite, problem_solved, linkedin_post)` of the final state. -/
def RState.outputs (s : RState) : String × String × String :=
  (s.abstract_rewrite, s.problem_solved, s.linkedin_post)

end Reflection

namespace Pipeline

/-- A retrieved item, reduced to what the retrieval loop inspects: the
`canonical_id` of its `to_dict()`. -/
structure Item where
  canonical_id : String
deriving DecidableEq, Repr

/-- `LiteraturePipeline.filter_new_papers`: keep the papers whose
`canonical_id` is not in the ledger. -/
def filter_new_papers (st : PaperLedger.State) (papers : List Item) : List Item :=
  papers.filter fun p => !(PaperLedger.is_processed st (.vstr p.canonical_id))

/-- The `max_batch_size = 50` ceiling hard-coded in `run()`. -/
def maxBatchSize : Nat := 50

/-- The loop-carried variables of `run()`'s retrieval loop (`new_papers`,
`batch_size`; the `attempt` counter only feeds logging and is omitted). -/
structure LoopState where
  newPapers : List Item
  batchSize : Nat
deriving DecidableEq, Repr

/-- Why the retrieval loop stopped: the target count of new papers was
reached (the in-loop break or the `while` condition), a retrieval attempt
returned no items at all, or the batch-size ceiling was hit with zero new
items in the batch. -/
inductive StopReason where
  | targetReached : StopReason
  | noItems : StopReason
  | ceilingNoNew : StopReason
deriving DecidableEq, Repr

/-- One iteration of the retrieval loop in `LiteraturePipeline.run`
(`retrieve` maps a per-source batch size to the combined retrieval result):
check the `while` condition, retrieve, stop on an empty retrieval, filter
against the ledger, stop when the target is reached, stop at the ceiling
with zero new items, else double the batch size (capped) and continue. -/
def loopStep (retrieve : Nat → List Item) (st : PaperLedger.State)
    (target : Nat) (s : LoopState) : LoopState ⊕ (LoopState × StopReason) :=
  if target ≤ s.newPapers.length then .inr (s, .targetReached)
  else if retrieve s.batchSize = [] then .inr (s, .noItems)
  else if target ≤ (filter_new_papers st (retrieve s.batchSize)).length then
    .inr (⟨filter_new_papers st (retrieve s.batchSize), s.batchSize⟩, .targetReached)
  else if maxBatchSize ≤ s.batchSize ∧
      (filter_new_papers st (retrieve s.batchSize)).length = 0 then
    .inr (⟨filter_new_papers st (retrieve s.batchSize), s.batchSize⟩, .ceilingNoNew)
  else .inl ⟨filter_new_papers st (retrieve s.batchSize),
    min (s.batchSize * 2) maxBatchSize⟩

/-- The retrieval loop, fuelled: `none` means the fuel ran out with the loop
still running. -/
def retrieveLoop (retrieve : Nat → List Item) (st : PaperLedger.State)
    (target : Nat) : Nat → LoopState → Option (LoopState × StopReason)
  | 0, _ => none
  | fuel + 1, s =>
    match loopStep retrieve st target s with
    | .inr out => some out
    | .inl s' => retrieveLoop retrieve st target fuel s'

/-- One successfully processed item, carrying exactly the arguments
`process_paper` passes to `ledger.add_entry`. -/
structure ProcessedItem where
  paper_dict : PaperDict
  now : String
  model_name : String
  abstract_rewrite : String
  problem_solved : String
  linkedin_post : String

/-- The ledger-affecting operations `run()` performs, in order: one
`ledger.add_entry` per processed item (inside `process_paper`), and
`ledger.save`. -/
inductive RunOp where
  | addItem (it : ProcessedItem) : RunOp
  | saveLedger : RunOp

/-- The world the run acts on: the in-memory ledger and the persisted table
(`none` when no ledger file exists on disk). -/
structure World where
  mem : PaperLedger.State
  disk : Option (List (List String))

/-- Effect of one run operation. -/
def applyOp (w : World) : RunOp → World
  | .addItem it =>
      { w with mem := (PaperLedger.add_entry w.mem it.paper_dict it.now
          it.model_name it.abstract_rewrite it.problem_solved it.linkedin_post) }
  | .saveLedger => { w with disk := some (PaperLedger.saveRecords w.mem) }

/-- Apply a sequence of run operations (a crash is a prefix of the list). -/
def applyOps (w : World) (ops : List RunOp) : World :=
  ops.foldl applyOp w

/-- The ledger-affecting operation sequence of `LiteraturePipeline.run`:
`process_paper` (hence `add_entry`) for each successfully processed paper,
then for each successfully processed Reddit post, and a single
`ledger.save` at Step 4, after all items. -/
def runOps (papers redditPosts : List ProcessedItem) : List RunOp :=
  papers.map RunOp.addItem ++ redditPosts.map RunOp.addItem ++ [RunOp.saveLedger]

end Pipeline

namespace FsModel

/-- A filesystem path split as `pathlib` sees it: the part before the suffix,
and the suffix (including its dot, possibly empty). -/
structure FsPath where
  stem : String
  suffix : String
deriving DecidableEq, Repr

/-- `pathlib.Path.with_suffix`: replace the suffix, keep the stem. -/
def FsPath.with_suffix (p : FsPath) (suffix : String) : FsPath :=
  ⟨p.stem, suffix⟩

/-- Content of a file during `save()`: a fully written CSV table, or the
partial content left behind when a crash interrupts the write. -/
inductive FileData where
  | table (records : List (List String)) : FileData
  | midWrite (written : List (List String)) : FileData
deriving DecidableEq, Repr

/-- A filesystem: what each path currently holds. -/
def Fs : Type := FsPath → Option FileData

/-- Create/overwrite one file. -/
def Fs.write (fs : Fs) (p : FsPath) (d : FileData) : Fs :=
  fun q => if q = p then some d else fs q

/-- Remove one file. -/
def Fs.remove (fs : Fs) (p : FsPath) : Fs :=
  fun q => if q = p then none else fs q

/-- The filesystem after `temp_path.replace(self.ledger_path)`: the single
atomic rename that installs the fully written temp file over the final
path and consumes the temp file. -/
def afterReplace (fs : Fs) (ledger_path : FsPath) (st : PaperLedger.State) : Fs :=
  Fs.write
    (Fs.remove
      (Fs.write fs (ledger_path.with_suffix ".tmp")
        (FileData.table (PaperLedger.saveRecords st)))
      (ledger_path.with_suffix ".tmp"))
    ledger_path (FileData.table (PaperLedger.saveRecords st))

/-- The filesystem states `PaperLedger.save` passes through, in order:
before anything; with the temp file (`ledger_path.with_suffix(".tmp")`)
partially written; with the temp file fully written; and after the atomic
replace.  A crash during `save` leaves the filesystem in one of the
non-final states; `written` is the arbitrary partial content a mid-write
crash leaves in the temp file. -/
def saveStates (fs : Fs) (ledger_path : FsPath) (st : PaperLedger.State)
    (written : List (List String)) : List Fs :=
  [fs,
   Fs.write fs (ledger_path.with_suffix ".tmp") (FileData.midWrite written),
   Fs.write fs (ledger_path.with_suffix ".tmp")
     (FileData.table (PaperLedger.saveRecords st)),
   afterReplace fs ledger_path st]

end FsModel

namespace Normalise

/-- The code points Python's `re` module matches with `\s` on `str` patterns
(which is also the whitespace set `str.strip()` removes): ASCII whitespace,
the information separators, NEL, NBSP, and the Unicode space characters. -/
def pySpaceCodes : List Nat :=
  [32, 9, 10, 13, 11, 12, 28, 29, 30, 31, 0x85, 0xa0, 0x1680,
   0x2000, 0x2001, 0x2002, 0x2003, 0x2004, 0x2005, 0x2006, 0x2007,
   0x2008, 0x2009, 0x200a, 0x2028, 0x2029, 0x202f, 0x205f, 0x3000]

/-- Whether `re`'s `\s` matches the character. -/
def isPySpace (c : Char) : Bool := decide (c.toNat ∈ pySpaceCodes)

/-- U+0301 COMBINING ACUTE ACCENT. -/
def combAcute : Char := '́'
/-- U+0300 COMBINING GRAVE ACCENT. -/
def combGrave : Char := '̀'
/-- U+0302 COMBINING CIRCUMFLEX ACCENT. -/
def combCirc : Char := '̂'
/-- U+0308 COMBINING DIAERESIS. -/
def combDiaer : Char := '̈'
/-- U+0303 COMBINING TILDE. -/
def combTilde : Char := '̃'
/-- U+030A COMBINING RING ABOVE. -/
def combRing : Char := '̊'
/-- U+0327 COMBINING CEDILLA. -/
def combCedil : Char := '̧'

/-- The Unicode canonical decompositions (code point to fully decomposed
character sequence) for the Latin-1 range.  This table is COMPLETE for code
points below U+0100: exactly the letters listed here decompose (each into an
ASCII base letter plus one combining mark), and no other code point below
U+0100 — ASCII, Latin-1 punctuation and symbols, and the non-decomposing
letters Æ Ð × Ø Þ ß æ ð ÷ ø þ — has a canonical decomposition. -/
def nfdTable : List (Nat × List Char) :=
  [(0xc0, ['A', combGrave]), (0xc1, ['A', combAcute]), (0xc2, ['A', combCirc]),
   (0xc3, ['A', combTilde]), (0xc4, ['A', combDiaer]), (0xc5, ['A', combRing]),
   (0xc7, ['C', combCedil]), (0xc8, ['E', combGrave]), (0xc9, ['E', combAcute]),
   (0xca, ['E', combCirc]), (0xcb, ['E', combDiaer]), (0xcc, ['I', combGrave]),
   (0xcd, ['I', combAcute]), (0xce, ['I', combCirc]), (0xcf, ['I', combDiaer]),
   (0xd1, ['N', combTilde]), (0xd2, ['O', combGrave]), (0xd3, ['O', combAcute]),
   (0xd4, ['O', combCirc]), (0xd5, ['O', combTilde]), (0xd6, ['O', combDiaer]),
   (0xd9, ['U', combGrave]), (0xda, ['U', combAcute]), (0xdb, ['U', combCirc]),
   (0xdc, ['U', combDiaer]), (0xdd, ['Y', combAcute]),
   (0xe0, ['a', combGrave]), (0xe1, ['a', combAcute]), (0xe2, ['a', combCirc]),
   (0xe3, ['a', combTilde]), (0xe4, ['a', combDiaer]), (0xe5, ['a', combRing]),
   (0xe7, ['c', combCedil]), (0xe8, ['e', combGrave]), (0xe9, ['e', combAcute]),
   (0xea, ['e', combCirc]), (0xeb, ['e', combDiaer]), (0xec, ['i', combGrave]),
   (0xed, ['i', combAcute]), (0xee, ['i', combCirc]), (0xef, ['i', combDiaer]),
   (0xf1, ['n', combTilde]), (0xf2, ['o', combGrave]), (0xf3, ['o', combAcute]),
   (0xf4, ['o', combCirc]), (0xf5, ['o', combTilde]), (0xf6, ['o', combDiaer]),
   (0xf9, ['u', combGrave]), (0xfa, ['u', combAcute]), (0xfb, ['u', combCirc]),
   (0xfc, ['u', combDiaer]), (0xfd, ['y', combAcute]), (0xff, ['y', combDiaer])]

/-- Per-character Unicode canonical decomposition, as
`unicodedata.normalize("NFD", ·)` performs it.  Exact for every code point
below U+0100 (the table above is the complete Latin-1 decomposition data);
code points above that range outside the table are treated as having no
decomposition, and the theorems below rely on decomposition behaviour only
where it is exact (the bound appears as a hypothesis where it matters).
Canonical reordering, the other half of NFD, only permutes
nonzero-combining-class marks, all of which the subsequent `Mn` filter of
`normalise_title` removes, so character-wise decomposition is faithful for
the normaliser's result. -/
def nfdChar (c : Char) : List Char :=
  match nfdTable.find? (fun p => p.1 == c.toNat) with
  | some p => p.2
  | none => [c]

/-- `unicodedata.normalize("NFD", title)` over the character list. -/
def nfd (l : List Char) : List Char := l.flatMap nfdChar

/-- `unicodedata.category(char) == "Mn"`, modelled for the Combining
Diacritical Marks block U+0300–U+036F (all of whose code points are `Mn`);
other code points are treated as non-`Mn`. -/
def isMn (c : Char) : Bool := decide (0x300 ≤ c.toNat ∧ c.toNat ≤ 0x36f)

/-- `str.lower()` per character, for the ASCII range (`A`–`Z` map to
`a`–`z`; other modelled code points are unaffected — the accented
uppercase letters have already been decomposed by NFD when lowercasing
runs in `normalise_title`). -/
def pyLower (c : Char) : Char :=
  if 65 ≤ c.toNat ∧ c.toNat ≤ 90 then Char.ofNat (c.toNat + 32) else c

/-- Membership in `[a-z0-9]` (the characters `re.sub(r"[^a-z0-9\s]", "", ·)`
keeps, besides whitespace). -/
def isAlnumLower (c : Char) : Bool :=
  decide ((97 ≤ c.toNat ∧ c.toNat ≤ 122) ∨ (48 ≤ c.toNat ∧ c.toNat ≤ 57))

/-- `re.sub(r"[^a-z0-9\s]", "", ·)`: keep lowercase alphanumerics and
whitespace. -/
def removeNonAlnum (l : List Char) : List Char :=
  l.filter fun c => isAlnumLower c || isPySpace c

/-- Worker for `re.sub(r"\s+", " ", ·)`: replace every maximal run of
whitespace characters by a single space.  The flag records whether the
scanner is inside a whitespace run whose single replacement space has
already been emitted. -/
def collapseWsAux : Bool → List Char → List Char
  | _, [] => []
  | inRun, c :: rest =>
    if isPySpace c then
      if inRun then collapseWsAux true rest
      else ' ' :: collapseWsAux true rest
    else c :: collapseWsAux false rest

/-- `re.sub(r"\s+", " ", ·)`. -/
def collapseWs (l : List Char) : List Char := collapseWsAux false l

/-- `str.strip()`: drop leading and trailing whitespace. -/
def pyStrip (l : List Char) : List Char :=
  ((l.dropWhile isPySpace).reverse.dropWhile isPySpace).reverse

/-- The processing pipeline of `normalise_title` on the character list:
NFD decomposition, removal of `Mn` marks, lowercasing, removal of
non-alphanumeric non-whitespace characters, whitespace collapsing, strip. -/
def pipeline (l : List Char) : List Char :=
  pyStrip (collapseWs (removeNonAlnum (((nfd l).filter fun c => !isMn c).map pyLower)))

/-- `normalise_title`: the falsy-title early return, then the pipeline. -/
def normalise_title (s : String) : String :=
  if s = "" then "" else String.mk (pipeline s.data)

end Normalise

/-! ## Ledger round-trip facts -/

namespace PaperLedger

/-- Whether a row value is a Python string. -/
def PyVal.isStr : LitAgent.PyVal → Bool
  | .vstr _ => true
  | _ => false

/-- The row an entry becomes after one save/reload cycle: every field is
read back as the string cell `csv` wrote for it. -/
def Entry.stringify (e : Entry) : Entry where
  canonical_id := .vstr e.canonical_id.toCell
  source := .vstr e.source.toCell
  arxiv_id := .vstr e.arxiv_id.toCell
  doi := .vstr e.doi.toCell
  title := .vstr e.title.toCell
  authors := .vstr e.authors.toCell
  venue := .vstr e.venue.toCell
  year := .vstr e.year.toCell
  url := .vstr e.url.toCell
  discovered_date := .vstr e.discovered_date.toCell
  processed_date := .vstr e.processed_date.toCell
  model_name := .vstr e.model_name.toCell
  abstract_rewrite := .vstr e.abstract_rewrite.toCell
  problem_solved := .vstr e.problem_solved.toCell
  linkedin_post := .vstr e.linkedin_post.toCell

/-- All fifteen fields of the row are strings. -/
def Entry.allStrings (e : Entry) : Bool :=
  PyVal.isStr e.canonical_id && PyVal.isStr e.source && PyVal.isStr e.arxiv_id &&
  PyVal.isStr e.doi && PyVal.isStr e.title && PyVal.isStr e.authors &&
  PyVal.isStr e.venue && PyVal.isStr e.year && PyVal.isStr e.url &&
  PyVal.isStr e.discovered_date && PyVal.isStr e.processed_date &&
  PyVal.isStr e.model_name && PyVal.isStr e.abstract_rewrite &&
  PyVal.isStr e.problem_solved && PyVal.isStr e.linkedin_post

theorem loadEntry_entryCells (e : Entry) :
    loadEntry (entryCells e) = e.stringify := rfl

theorem stringify_of_allStrings (e : Entry) (h : e.allStrings = true) :
    e.stringify = e := by
  obtain ⟨a, b, c, d, f, g, i, j, k, l, m, n, o, p, q⟩ := e
  simp only [Entry.allStrings, Bool.and_eq_true] at h
  obtain ⟨⟨⟨⟨⟨⟨⟨⟨⟨⟨⟨⟨⟨⟨h1, h2⟩, h3⟩, h4⟩, h5⟩, h6⟩, h7⟩, h8⟩, h9⟩, h10⟩, h11⟩,
    h12⟩, h13⟩, h14⟩, h15⟩ := h
  cases a <;> simp_all [PyVal.isStr]
  cases b <;> simp_all [PyVal.isStr]
  cases c <;> simp_all [PyVal.isStr]
  cases d <;> simp_all [PyVal.isStr]
  cases f <;> simp_all [PyVal.isStr]
  cases g <;> simp_all [PyVal.isStr]
  cases i <;> simp_all [PyVal.isStr]
  cases j <;> simp_all [PyVal.isStr]
  cases k <;> simp_all [PyVal.isStr]
  cases l <;> simp_all [PyVal.isStr]
  cases m <;> simp_all [PyVal.isStr]
  cases n <;> simp_all [PyVal.isStr]
  cases o <;> simp_all [PyVal.isStr]
  cases p <;> simp_all [PyVal.isStr]
  cases q <;> simp_all [PyVal.isStr, Entry.stringify, PyVal.toCell]

theorem loadState_saveRecords_rows (st : State) :
    (loadState (saveRecords st)).ledger_rows = st.ledger_rows.map Entry.stringify := by
  simp [loadState, saveRecords, List.map_map, Function.comp_def, loadEntry_entryCells]

end PaperLedger

/-! ## Claim theorems: ledger (C1, C6, C7, C10) -/

/-- A paper dict whose only key is `canonical_id`, mapped to the empty
string. -/
def emptyIdDict : PaperDict :=
  fun k => if k = "canonical_id" then some (.vstr "") else none

/-- C1 counterexample: with canonical_id `X = ""`, `add_entry` makes
`is_processed("")` true in memory, but a fresh ledger constructed over the
file `save()` produces reports `is_processed("") = false`, because `_load`
only registers truthy canonical ids (`if canonical_id:`). -/
theorem c1_empty_id_counterexample :
    PaperLedger.is_processed
      (PaperLedger.add_entry .empty emptyIdDict "t" "m" "a" "p" "l")
      (.vstr "") = true ∧
    PaperLedger.is_processed
      (PaperLedger.loadState (PaperLedger.saveRecords
        (PaperLedger.add_entry .empty emptyIdDict "t" "m" "a" "p" "l")))
      (.vstr "") = false := by
  decide

/-- C1 (amended): for every NONEMPTY canonical_id X, after `add_entry` with a
paper dict whose canonical_id is X, `is_processed(X)` is true; and a fresh
ledger constructed over a file produced by `save()` on a ledger containing an
entry with canonical_id X also reports `is_processed(X) = true`.  (The
original claim, quantified over every canonical_id, fails at `X = ""`, which
`_load` skips.) -/
theorem c1_ledger_at_most_once_amended
    (st st' : PaperLedger.State) (d : PaperDict)
    (now mn ar ps lp X : String)
    (hd : d "canonical_id" = some (.vstr X)) (hX : X ≠ "")
    (hmem : ∃ e ∈ st'.ledger_rows, e.canonical_id = .vstr X) :
    PaperLedger.is_processed (PaperLedger.add_entry st d now mn ar ps lp)
      (.vstr X) = true ∧
    PaperLedger.is_processed (PaperLedger.loadState (PaperLedger.saveRecords st'))
      (.vstr X) = true := by
  constructor
  · simp [PaperLedger.is_processed, PaperLedger.add_entry, PaperLedger.mkEntry,
      PaperDict.get, hd]
  · obtain ⟨e, he, hid⟩ := hmem
    simp only [PaperLedger.is_processed, PaperLedger.loadState,
      PaperLedger.saveRecords, List.map_map, decide_eq_true_eq]
    refine List.mem_filterMap.mpr ⟨(PaperLedger.loadEntry ∘ PaperLedger.entryCells) e,
      List.mem_map_of_mem _ he, ?_⟩
    have : (PaperLedger.loadEntry (PaperLedger.entryCells e)).canonical_id = .vstr X := by
      rw [PaperLedger.loadEntry_entryCells]
      simp [PaperLedger.Entry.stringify, hid, PyVal.toCell]
    simp only [Function.comp_apply, this]
    rw [if_pos]
    simp [PyVal.truthy, hX]

/-- A paper dict with canonical_id `"id1"`. -/
def id1Dict : PaperDict :=
  fun k => if k = "canonical_id" then some (.vstr "id1") else none

/-- Witness for the amended C1 at concrete inputs. -/
theorem c1_ledger_at_most_once_amended_witness :
    PaperLedger.is_processed
      (PaperLedger.add_entry .empty id1Dict "t" "m" "a" "p" "l")
      (.vstr "id1") = true ∧
    PaperLedger.is_processed
      (PaperLedger.loadState (PaperLedger.saveRecords
        (PaperLedger.add_entry .empty id1Dict "t" "m" "a" "p" "l")))
      (.vstr "id1") = true :=
  c1_ledger_at_most_once_amended .empty
    (PaperLedger.add_entry .empty id1Dict "t" "m" "a" "p" "l")
    id1Dict "t" "m" "a" "p" "l" "id1" rfl (by decide)
    ⟨PaperLedger.mkEntry id1Dict "t" "m" "a" "p" "l", by decide, by decide⟩

/-- A paper dict carrying an integer year, as every retrieval client's
`to_dict()` does. -/
def intYearDict : PaperDict :=
  fun k =>
    if k = "canonical_id" then some (.vstr "x")
    else if k = "year" then some (.vint 2024) else none

/-- C6 counterexample: a ledger whose single row was added from a paper dict
with integer year 2024 does NOT reproduce identical field values after
save/reload — the `year` field comes back as the string "2024". -/
theorem c6_year_roundtrip_counterexample :
    (PaperLedger.add_entry .empty intYearDict "now" "m" "a" "p" "l").ledger_rows.map
      (fun e => e.year) = [.vint 2024] ∧
    (PaperLedger.loadState (PaperLedger.saveRecords
      (PaperLedger.add_entry .empty intYearDict "now" "m" "a" "p" "l"))).ledger_rows.map
      (fun e => e.year) = [.vstr "2024"] ∧
    (PaperLedger.loadState (PaperLedger.saveRecords
      (PaperLedger.add_entry .empty intYearDict "now" "m" "a" "p" "l"))).ledger_rows ≠
    (PaperLedger.add_entry .empty intYearDict "now" "m" "a" "p" "l").ledger_rows := by
  refine ⟨by decide, by decide, by decide⟩

/-- C6 (amended): save/reload reproduces every persisted row with each field
value replaced by its CSV string rendering (`str()`, with `None` read back as
`""`); in particular, for every ledger whose in-memory rows hold only string
field values, a fresh ledger constructed over the saved file reproduces
identical field values for every persisted row.  (The original claim fails
for non-string values: an integer `year` reloads as its decimal string.) -/
theorem c6_durability_roundtrip_amended (st : PaperLedger.State)
    (h : ∀ e ∈ st.ledger_rows, e.allStrings = true) :
    (PaperLedger.loadState (PaperLedger.saveRecords st)).ledger_rows =
      st.ledger_rows := by
  rw [PaperLedger.loadState_saveRecords_rows]
  exact List.map_congr_left (fun e he => PaperLedger.stringify_of_allStrings e (h e he))
    |>.trans st.ledger_rows.map_id

/-- A paper dict with all-string field values. -/
def allStrDict : PaperDict :=
  fun k =>
    if k = "canonical_id" then some (.vstr "id9")
    else if k = "source" then some (.vstr "arxiv")
    else if k = "title" then some (.vstr "A Title")
    else if k = "year" then some (.vstr "2024") else none

/-- Witness for the amended C6 at a concrete one-row ledger. -/
theorem c6_durability_roundtrip_amended_witness :
    (PaperLedger.loadState (PaperLedger.saveRecords
      (PaperLedger.add_entry .empty allStrDict "now" "m" "a" "p" "l"))).ledger_rows =
    (PaperLedger.add_entry .empty allStrDict "now" "m" "a" "p" "l").ledger_rows :=
  c6_durability_roundtrip_amended
    (PaperLedger.add_entry .empty allStrDict "now" "m" "a" "p" "l") (by decide)

/-- C7: constructing a ledger when no persisted file exists succeeds with an
empty ledger (`is_processed` false for every id) and raises nothing, while
constructing over an existing but unreadable/corrupt file propagates the
load error instead of silently starting empty. -/
theorem c7_init_missing_empty_corrupt_fatal :
    PaperLedger.init .absent = .ok PaperLedger.State.empty ∧
    (∀ cid : PyVal, PaperLedger.is_processed PaperLedger.State.empty cid = false) ∧
    PaperLedger.init .corrupt = .error .loadFailure := by
  refine ⟨rfl, ?_, rfl⟩
  intro cid
  simp [PaperLedger.is_processed, PaperLedger.State.empty]

/-- C10: `get_new_papers_count` counts the rows whose `processed_date` equals
their `discovered_date`; since every saved cell pair that agreed still agrees
after reload, a ledger freshly loaded from a save of N such rows (as
`add_entry` always stamps both dates identically) reports N — the count of
ALL historical rows, not the number of entries added in the current
session. -/
theorem c10_new_papers_count_counts_loaded_rows (st : PaperLedger.State)
    (h : ∀ e ∈ st.ledger_rows, e.processed_date.toCell = e.discovered_date.toCell) :
    PaperLedger.get_new_papers_count
      (PaperLedger.loadState (PaperLedger.saveRecords st)) =
      st.ledger_rows.length := by
  unfold PaperLedger.get_new_papers_count
  rw [PaperLedger.loadState_saveRecords_rows]
  rw [List.filter_eq_self.mpr, List.length_map]
  intro e he
  obtain ⟨e', he', rfl⟩ := List.mem_map.mp he
  simp [PaperLedger.Entry.stringify, h e' he']

/-- Witness for C10: a freshly loaded two-row ledger reports count 2. -/
theorem c10_new_papers_count_witness :
    PaperLedger.get_new_papers_count
      (PaperLedger.loadState (PaperLedger.saveRecords
        (PaperLedger.add_entry
          (PaperLedger.add_entry .empty id1Dict "t1" "m" "a" "p" "l")
          allStrDict "t2" "m" "a" "p" "l"))) = 2 :=
  c10_new_papers_count_counts_loaded_rows _ (by decide)

/-! ## Claim theorems: atomic save (C2) -/

/-- C2 (amended): provided the ledger path's suffix is not `.tmp` — so that
the temp path `ledger_path.with_suffix(".tmp")` is a different file — every
crash point during `save()` (before anything, mid-write of the temp file,
after the temp file is complete) leaves the previously persisted ledger file
unchanged, and the final step installs the full new table over the final
path with the single atomic replace.  (The original claim, over every ledger
state, fails when the ledger path itself ends in `.tmp`: then `with_suffix`
yields the ledger path itself and the temp-file write truncates the
last-known-good copy in place.) -/
theorem c2_save_atomic_amended (fs : FsModel.Fs) (p : FsModel.FsPath)
    (st : PaperLedger.State) (written : List (List String))
    (h : p.suffix ≠ ".tmp") :
    (∀ s ∈ (FsModel.saveStates fs p st written).dropLast, s p = fs p) ∧
    FsModel.afterReplace fs p st p =
      some (.table (PaperLedger.saveRecords st)) := by
  have hptmp : p ≠ p.with_suffix ".tmp" := by
    intro he
    exact h (congrArg FsModel.FsPath.suffix he)
  constructor
  · intro s hs
    simp only [FsModel.saveStates, List.dropLast, List.mem_cons,
      List.not_mem_nil, or_false] at hs
    rcases hs with rfl | rfl | rfl
    · rfl
    · simp [FsModel.Fs.write, hptmp]
    · simp [FsModel.Fs.write, hptmp]
  · simp [FsModel.afterReplace, FsModel.Fs.write]

/-- Witness for the amended C2 at a concrete path and filesystem. -/
theorem c2_save_atomic_amended_witness :
    (∀ s ∈ (FsModel.saveStates (fun _ => none) ⟨"ledger", ".csv"⟩
        PaperLedger.State.empty []).dropLast,
      s ⟨"ledger", ".csv"⟩ = none) ∧
    FsModel.afterReplace (fun _ => none) ⟨"ledger", ".csv"⟩
        PaperLedger.State.empty ⟨"ledger", ".csv"⟩ =
      some (.table (PaperLedger.saveRecords PaperLedger.State.empty)) :=
  c2_save_atomic_amended (fun _ => none) ⟨"ledger", ".csv"⟩
    PaperLedger.State.empty [] (by decide)

/-- A filesystem holding one previously persisted ledger table at the path
`⟨"ledger", ".tmp"⟩`. -/
def tmpSuffixFs : FsModel.Fs :=
  fun q => if q = ⟨"ledger", ".tmp"⟩ then some (.table [["old"]]) else none

/-- C2 counterexample: when the ledger path itself has suffix `.tmp`, the
temp path coincides with it, and the mid-write crash state of `save()` has
replaced the previously persisted table with partial content — the
last-known-good copy is corrupted. -/
theorem c2_tmp_suffix_counterexample :
    ∃ s ∈ (FsModel.saveStates tmpSuffixFs ⟨"ledger", ".tmp"⟩
      PaperLedger.State.empty []).dropLast,
      s ⟨"ledger", ".tmp"⟩ ≠ tmpSuffixFs ⟨"ledger", ".tmp"⟩ := by
  refine ⟨FsModel.Fs.write tmpSuffixFs
    (FsModel.FsPath.with_suffix ⟨"ledger", ".tmp"⟩ ".tmp")
    (.midWrite []), ?_, ?_⟩
  · simp [FsModel.saveStates, List.dropLast]
  · simp [FsModel.Fs.write, FsModel.FsPath.with_suffix, tmpSuffixFs]

/-! ## Claim theorems: reflection controller (C3, C4) -/

namespace Reflection

/-- The state as the conditional edge sees it: after the critic node has run
on the initial state. -/
def criticState (criticResp : CriticResponse) (title authors venue : String)
    (year : Int) (abstract abstract_rewrite problem_solved linkedin_post : String)
    (max_iterations : Nat) : RState :=
  critic_node criticResp (initialState title authors venue year abstract
    abstract_rewrite problem_solved linkedin_post max_iterations)

theorem critic_node_keeps_drafts (resp : CriticResponse) (s : RState) :
    (critic_node resp s).abstract_rewrite = s.abstract_rewrite ∧
    (critic_node resp s).problem_solved = s.problem_solved ∧
    (critic_node resp s).linkedin_post = s.linkedin_post ∧
    (critic_node resp s).iteration = s.iteration ∧
    (critic_node resp s).max_iterations = s.max_iterations := by
  cases resp <;> exact ⟨rfl, rfl, rfl, rfl, rfl⟩

end Reflection

/-- C3: the conditional edge accepts exactly when the critic-set score is
`>= 8.0` or the iteration counter (0 at that point) has reached
`max_iterations`; on the accept branch `reflect()` returns the three draft
fields unchanged and never invokes the reviser; on the revise branch the
reviser runs exactly once and the graph terminates without re-entering the
critic (so the reviser is invoked at most once regardless of inputs and, in
particular, with the default `max_iterations = 1` at most one revision
occurs). -/
theorem c3_reflection_transition (criticResp : Reflection.CriticResponse)
    (reviserResp : Reflection.ReviserResponse)
    (title authors venue : String) (year : Int)
    (abstract ar ps lp : String) (maxIter : Nat) :
    (Reflection.should_revise
        (Reflection.criticState criticResp title authors venue year abstract
          ar ps lp maxIter) = .accept ↔
      8 ≤ (Reflection.criticState criticResp title authors venue year abstract
          ar ps lp maxIter).score ∨
        maxIter ≤ (Reflection.criticState criticResp title authors venue year
          abstract ar ps lp maxIter).iteration) ∧
    (Reflection.criticState criticResp title authors venue year abstract
      ar ps lp maxIter).iteration = 0 ∧
    (Reflection.criticState criticResp title authors venue year abstract
      ar ps lp maxIter).max_iterations = maxIter ∧
    (Reflection.should_revise
        (Reflection.criticState criticResp title authors venue year abstract
          ar ps lp maxIter) = .accept →
      (Reflection.reflect criticResp reviserResp title authors venue year
          abstract ar ps lp maxIter).1.outputs = (ar, ps, lp) ∧
      (Reflection.reflect criticResp reviserResp title authors venue year
          abstract ar ps lp maxIter).2 = 0) ∧
    (Reflection.should_revise
        (Reflection.criticState criticResp title authors venue year abstract
          ar ps lp maxIter) = .revise →
      (Reflection.reflect criticResp reviserResp title authors venue year
          abstract ar ps lp maxIter).2 = 1) ∧
    (Reflection.reflect criticResp reviserResp title authors venue year
      abstract ar ps lp maxIter).2 ≤ 1 := by
  have hiter : (Reflection.criticState criticResp title authors venue year
      abstract ar ps lp maxIter).iteration = 0 :=
    (Reflection.critic_node_keeps_drafts criticResp _).2.2.2.1
  have hmax : (Reflection.criticState criticResp title authors venue year
      abstract ar ps lp maxIter).max_iterations = maxIter :=
    (Reflection.critic_node_keeps_drafts criticResp _).2.2.2.2
  refine ⟨?_, hiter, hmax, ?_, ?_, ?_⟩
  · unfold Reflection.should_revise
    rw [hmax]
    constructor
    · intro h
      by_contra hc
      rw [if_neg hc] at h
      exact Reflection.Decision.noConfusion h
    · intro h
      rw [if_pos h]
  · intro h
    have hout := Reflection.critic_node_keeps_drafts criticResp
      (Reflection.initialState title authors venue year abstract ar ps lp maxIter)
    unfold Reflection.reflect
    unfold Reflection.criticState at h
    rw [h]
    refine ⟨?_, rfl⟩
    simp only [Reflection.RState.outputs, hout.1, hout.2.1, hout.2.2.1]
    rfl
  · intro h
    unfold Reflection.reflect
    unfold Reflection.criticState at h
    rw [h]
  · unfold Reflection.reflect
    rcases hsd : Reflection.should_revise (Reflection.critic_node criticResp
      (Reflection.initialState title authors venue year abstract ar ps lp
        maxIter)) with _ | _ <;> simp

/-- Witness for C3 at concrete inputs (a parsed critique scoring 9). -/
theorem c3_reflection_transition_witness :
    (Reflection.should_revise
        (Reflection.criticState (.parsed "{}" [] 9) "t" "a" "v" 2024 "abs"
          "d1" "d2" "d3" 1) = .accept ↔
      8 ≤ (Reflection.criticState (.parsed "{}" [] 9) "t" "a" "v" 2024 "abs"
          "d1" "d2" "d3" 1).score ∨
        1 ≤ (Reflection.criticState (.parsed "{}" [] 9) "t" "a" "v" 2024 "abs"
          "d1" "d2" "d3" 1).iteration) ∧
    (Reflection.criticState (.parsed "{}" [] 9) "t" "a" "v" 2024 "abs"
      "d1" "d2" "d3" 1).iteration = 0 ∧
    (Reflection.criticState (.parsed "{}" [] 9) "t" "a" "v" 2024 "abs"
      "d1" "d2" "d3" 1).max_iterations = 1 ∧
    (Reflection.should_revise
        (Reflection.criticState (.parsed "{}" [] 9) "t" "a" "v" 2024 "abs"
          "d1" "d2" "d3" 1) = .accept →
      (Reflection.reflect (.parsed "{}" [] 9) (.malformed "x") "t" "a" "v" 2024
          "abs" "d1" "d2" "d3" 1).1.outputs = ("d1", "d2", "d3") ∧
      (Reflection.reflect (.parsed "{}" [] 9) (.malformed "x") "t" "a" "v" 2024
          "abs" "d1" "d2" "d3" 1).2 = 0) ∧
    (Reflection.should_revise
        (Reflection.criticState (.parsed "{}" [] 9) "t" "a" "v" 2024 "abs"
          "d1" "d2" "d3" 1) = .revise →
      (Reflection.reflect (.parsed "{}" [] 9) (.malformed "x") "t" "a" "v" 2024
          "abs" "d1" "d2" "d3" 1).2 = 1) ∧
    (Reflection.reflect (.parsed "{}" [] 9) (.malformed "x") "t" "a" "v" 2024
      "abs" "d1" "d2" "d3" 1).2 ≤ 1 :=
  c3_reflection_transition (.parsed "{}" [] 9) (.malformed "x") "t" "a" "v"
    2024 "abs" "d1" "d2" "d3" 1

/-- C4: `reflect()` never raises on unparsable generation output.  If the
critic response has no parsable structured payload, the controller falls
back to score 8.0 with an empty revision-action list and accepts, returning
the draft fields unchanged; if (on the revise branch) the reviser response
is unparsable, the pre-revision draft fields are returned unchanged while
the iteration counter is still incremented. -/
theorem c4_malformed_output_resilience :
    (∀ (raw : String) (reviserResp : Reflection.ReviserResponse)
        (title authors venue : String) (year : Int)
        (abstract ar ps lp : String) (maxIter : Nat),
      (Reflection.reflect (.malformed raw) reviserResp title authors venue year
          abstract ar ps lp maxIter).1.outputs = (ar, ps, lp) ∧
      (Reflection.reflect (.malformed raw) reviserResp title authors venue year
          abstract ar ps lp maxIter).1.score = 8 ∧
      (Reflection.reflect (.malformed raw) reviserResp title authors venue year
          abstract ar ps lp maxIter).1.revision_actions = [] ∧
      (Reflection.reflect (.malformed raw) reviserResp title authors venue year
          abstract ar ps lp maxIter).2 = 0) ∧
    (∀ (js : String) (acts : List String) (sc : Rat) (raw : String)
        (title authors venue : String) (year : Int)
        (abstract ar ps lp : String) (maxIter : Nat),
      sc < 8 → 1 ≤ maxIter →
      (Reflection.reflect (.parsed js acts sc) (.malformed raw) title authors
          venue year abstract ar ps lp maxIter).1.outputs = (ar, ps, lp) ∧
      (Reflection.reflect (.parsed js acts sc) (.malformed raw) title authors
          venue year abstract ar ps lp maxIter).1.iteration = 1 ∧
      (Reflection.reflect (.parsed js acts sc) (.malformed raw) title authors
          venue year abstract ar ps lp maxIter).2 = 1) := by
  constructor
  · intro raw reviserResp title authors venue year abstract ar ps lp maxIter
    have haccept : Reflection.should_revise
        (Reflection.critic_node (.malformed raw)
          (Reflection.initialState title authors venue year abstract ar ps lp
            maxIter)) = .accept := by
      unfold Reflection.should_revise
      rw [if_pos]
      left
      exact le_refl _
    unfold Reflection.reflect
    rw [haccept]
    exact ⟨rfl, rfl, rfl, rfl⟩
  · intro js acts sc raw title authors venue year abstract ar ps lp maxIter
      hsc hmi
    have hrevise : Reflection.should_revise
        (Reflection.critic_node (.parsed js acts sc)
          (Reflection.initialState title authors venue year abstract ar ps lp
            maxIter)) = .revise := by
      unfold Reflection.should_revise
      rw [if_neg]
      rintro (h8 | hit)
      · exact absurd h8 (not_le.mpr hsc)
      · simp only [Reflection.critic_node, Reflection.initialState] at hit
        omega
    unfold Reflection.reflect
    rw [hrevise]
    exact ⟨rfl, rfl, rfl⟩

/-- Witness for C4: a malformed critic response at concrete inputs, and a
sub-8 critique followed by a malformed reviser response. -/
theorem c4_malformed_output_resilience_witness :
    ((Reflection.reflect (.malformed "junk") (.parsed none none none) "t" "a"
        "v" 2024 "abs" "d1" "d2" "d3" 1).1.outputs = ("d1", "d2", "d3") ∧
      (Reflection.reflect (.malformed "junk") (.parsed none none none) "t" "a"
        "v" 2024 "abs" "d1" "d2" "d3" 1).1.score = 8 ∧
      (Reflection.reflect (.malformed "junk") (.parsed none none none) "t" "a"
        "v" 2024 "abs" "d1" "d2" "d3" 1).1.revision_actions = [] ∧
      (Reflection.reflect (.malformed "junk") (.parsed none none none) "t" "a"
        "v" 2024 "abs" "d1" "d2" "d3" 1).2 = 0) ∧
    ((Reflection.reflect (.parsed "{}" ["fix tone"] 5) (.malformed "junk") "t"
        "a" "v" 2024 "abs" "d1" "d2" "d3" 1).1.outputs = ("d1", "d2", "d3") ∧
      (Reflection.reflect (.parsed "{}" ["fix tone"] 5) (.malformed "junk") "t"
        "a" "v" 2024 "abs" "d1" "d2" "d3" 1).1.iteration = 1 ∧
      (Reflection.reflect (.parsed "{}" ["fix tone"] 5) (.malformed "junk") "t"
        "a" "v" 2024 "abs" "d1" "d2" "d3" 1).2 = 1) :=
  ⟨c4_malformed_output_resilience.1 "junk" (.parsed none none none) "t" "a" "v"
      2024 "abs" "d1" "d2" "d3" 1,
    c4_malformed_output_resilience.2 "{}" ["fix tone"] 5 "junk" "t" "a" "v"
      2024 "abs" "d1" "d2" "d3" 1 (by norm_num) (le_refl 1)⟩

/-! ## Claim theorems: volume-adaptive retrieval loop (C8) -/

namespace Pipeline

theorem loopStep_inr_sound (retrieve : Nat → List Item)
    (st : PaperLedger.State) (target : Nat) (s s' : LoopState) (r : StopReason)
    (h : loopStep retrieve st target s = .inr (s', r)) :
    (r = .targetReached → target ≤ s'.newPapers.length) ∧
    (r = .noItems → retrieve s'.batchSize = []) ∧
    (r = .ceilingNoNew → maxBatchSize ≤ s'.batchSize ∧
      retrieve s'.batchSize ≠ [] ∧
      filter_new_papers st (retrieve s'.batchSize) = []) := by
  unfold loopStep at h
  split_ifs at h with h1 h2 h3 h4
  · simp only [Sum.inr.injEq, Prod.mk.injEq] at h
    obtain ⟨rfl, rfl⟩ := h
    exact ⟨fun _ => h1, fun hr => StopReason.noConfusion hr,
      fun hr => StopReason.noConfusion hr⟩
  · simp only [Sum.inr.injEq, Prod.mk.injEq] at h
    obtain ⟨rfl, rfl⟩ := h
    exact ⟨fun hr => StopReason.noConfusion hr, fun _ => h2,
      fun hr => StopReason.noConfusion hr⟩
  · simp only [Sum.inr.injEq, Prod.mk.injEq] at h
    obtain ⟨rfl, rfl⟩ := h
    exact ⟨fun _ => h3, fun hr => StopReason.noConfusion hr,
      fun hr => StopReason.noConfusion hr⟩
  · simp only [Sum.inr.injEq, Prod.mk.injEq] at h
    obtain ⟨rfl, rfl⟩ := h
    refine ⟨fun hr => StopReason.noConfusion hr,
      fun hr => StopReason.noConfusion hr, fun _ => ⟨h4.1, h2, ?_⟩⟩
    exact List.length_eq_zero.mp h4.2

theorem retrieveLoop_sound (retrieve : Nat → List Item)
    (st : PaperLedger.State) (target : Nat) :
    ∀ (fuel : Nat) (s s' : LoopState) (r : StopReason),
      retrieveLoop retrieve st target fuel s = some (s', r) →
      (r = .targetReached → target ≤ s'.newPapers.length) ∧
      (r = .noItems → retrieve s'.batchSize = []) ∧
      (r = .ceilingNoNew → maxBatchSize ≤ s'.batchSize ∧
        retrieve s'.batchSize ≠ [] ∧
        filter_new_papers st (retrieve s'.batchSize) = []) := by
  intro fuel
  induction fuel with
  | zero =>
    intro s s' r h
    simp [retrieveLoop] at h
  | succ n ih =>
    intro s s' r h
    unfold retrieveLoop at h
    rcases hstep : loopStep retrieve st target s with s2 | out
    · rw [hstep] at h
      exact ih s2 s' r h
    · rw [hstep] at h
      simp only [Option.some.injEq] at h
      subst h
      exact loopStep_inr_sound retrieve st target s s' r hstep

end Pipeline

/-- C8 (amended): the retrieval loop's halting behaviour.  (1) Whenever the
loop stops, the stop is one of exactly three kinds, each with its condition
true in the stop state: the target count of new items was reached, a
retrieval attempt returned no items at all, or the batch-size ceiling was
reached and the batch yielded zero new items.  (2) The loop stops
immediately — on the very iteration whose filtered batch meets the target.
(3) At the ceiling with a batch of zero new items the loop stops after that
single iteration, never spinning there.  (The original claim's "always
terminates" is false: when retrieval at the ceiling keeps returning a
POSITIVE number of new items that stays below the target, none of the three
stop conditions ever holds and the loop runs forever; see the
counterexample.) -/
theorem c8_retrieval_loop_amended :
    (∀ (retrieve : Nat → List Pipeline.Item) (st : PaperLedger.State)
        (target fuel : Nat) (s s' : Pipeline.LoopState) (r : Pipeline.StopReason),
      Pipeline.retrieveLoop retrieve st target fuel s = some (s', r) →
      (r = .targetReached → target ≤ s'.newPapers.length) ∧
      (r = .noItems → retrieve s'.batchSize = []) ∧
      (r = .ceilingNoNew → Pipeline.maxBatchSize ≤ s'.batchSize ∧
        retrieve s'.batchSize ≠ [] ∧
        Pipeline.filter_new_papers st (retrieve s'.batchSize) = [])) ∧
    (∀ (retrieve : Nat → List Pipeline.Item) (st : PaperLedger.State)
        (target fuel : Nat) (s : Pipeline.LoopState),
      s.newPapers.length < target →
      target ≤ (Pipeline.filter_new_papers st (retrieve s.batchSize)).length →
      Pipeline.retrieveLoop retrieve st target (fuel + 1) s =
        some (⟨Pipeline.filter_new_papers st (retrieve s.batchSize),
          s.batchSize⟩, .targetReached)) ∧
    (∀ (retrieve : Nat → List Pipeline.Item) (st : PaperLedger.State)
        (target fuel : Nat) (s : Pipeline.LoopState),
      s.newPapers.length < target →
      Pipeline.maxBatchSize ≤ s.batchSize →
      Pipeline.filter_new_papers st (retrieve s.batchSize) = [] →
      ∃ out, Pipeline.retrieveLoop retrieve st target (fuel + 1) s = some out) := by
  refine ⟨fun retrieve st target fuel s s' r h =>
    Pipeline.retrieveLoop_sound retrieve st target fuel s s' r h, ?_, ?_⟩
  · intro retrieve st target fuel s h1 h2
    have hne : retrieve s.batchSize ≠ [] := by
      intro he
      rw [he] at h2
      simp only [Pipeline.filter_new_papers, List.filter_nil,
        List.length_nil] at h2
      omega
    unfold Pipeline.retrieveLoop
    have hstep : Pipeline.loopStep retrieve st target s =
        .inr (⟨Pipeline.filter_new_papers st (retrieve s.batchSize),
          s.batchSize⟩, .targetReached) := by
      unfold Pipeline.loopStep
      rw [if_neg (not_le.mpr h1), if_neg hne, if_pos h2]
    rw [hstep]
  · intro retrieve st target fuel s h1 hmax hfilter
    unfold Pipeline.retrieveLoop
    rcases he : retrieve s.batchSize with _ | ⟨a, rest⟩
    · have hstep : Pipeline.loopStep retrieve st target s = .inr (s, .noItems) := by
        unfold Pipeline.loopStep
        rw [if_neg (not_le.mpr h1), if_pos he]
      rw [hstep]
      exact ⟨(s, .noItems), rfl⟩
    · have hstep : Pipeline.loopStep retrieve st target s =
          .inr (⟨Pipeline.filter_new_papers st (retrieve s.batchSize),
            s.batchSize⟩, .ceilingNoNew) := by
        unfold Pipeline.loopStep
        rw [if_neg (not_le.mpr h1), if_neg (by rw [he]; simp), if_neg, if_pos]
        · exact ⟨hmax, by rw [hfilter]; rfl⟩
        · rw [hfilter]
          simp only [List.length_nil, Nat.le_zero]
          omega
      rw [hstep]
      exact ⟨_, rfl⟩

/-- A retrieval source that always returns the same single item. -/
def oneItemRetrieve : Nat → List Pipeline.Item := fun _ => [⟨"p1"⟩]

/-- C8 counterexample (non-termination): with an empty ledger, target 3, and
a source that keeps returning one unprocessed item at the batch-size ceiling
of 50, one loop iteration maps the loop state to itself while stopping under
none of the conditions, and the loop is still running after 100 iterations —
the retrieval loop does not always terminate. -/
theorem c8_nontermination_counterexample :
    Pipeline.loopStep oneItemRetrieve PaperLedger.State.empty 3
      ⟨[⟨"p1"⟩], 50⟩ = .inl ⟨[⟨"p1"⟩], 50⟩ ∧
    Pipeline.retrieveLoop oneItemRetrieve PaperLedger.State.empty 3 100
      ⟨[], 50⟩ = none := by
  exact ⟨rfl, rfl⟩

/-- Witness for the amended C8: a batch meeting the target stops the loop at
once with the target-reached outcome. -/
theorem c8_retrieval_loop_amended_witness :
    Pipeline.retrieveLoop (fun _ => [⟨"a"⟩, ⟨"b"⟩, ⟨"c"⟩])
      PaperLedger.State.empty 3 1 ⟨[], 10⟩ =
      some (⟨Pipeline.filter_new_papers PaperLedger.State.empty
        [⟨"a"⟩, ⟨"b"⟩, ⟨"c"⟩], 10⟩, .targetReached) :=
  c8_retrieval_loop_amended.2.1 (fun _ => [⟨"a"⟩, ⟨"b"⟩, ⟨"c"⟩])
    PaperLedger.State.empty 3 0 ⟨[], 10⟩ (by decide) (by decide)

/-! ## Claim theorems: run persistence sequencing (C9) -/

namespace Pipeline

theorem applyOps_addItems_disk (w : World) :
    ∀ ops : List RunOp, (∀ op ∈ ops, ∃ it, op = RunOp.addItem it) →
      (applyOps w ops).disk = w.disk := by
  intro ops
  induction ops generalizing w with
  | nil => intro _; rfl
  | cons op rest ih =>
    intro h
    obtain ⟨it, rfl⟩ := h op (List.mem_cons_self op rest)
    have : applyOps w (RunOp.addItem it :: rest) =
        applyOps (applyOp w (RunOp.addItem it)) rest := rfl
    rw [this, ih _ (fun o ho => h o (List.mem_cons_of_mem _ ho))]
    rfl

end Pipeline

/-- C9 (amended): during `run()`, `ledger.add_entry` is called once per
processed item, but `ledger.save` runs only ONCE, after all items (papers,
then Reddit posts).  Consequently a crash at any point before that final
save leaves the persisted ledger file exactly as it was when the run
started — entries persisted by earlier runs are never lost — but it loses
EVERY entry added during the current run, not just the single in-flight
item.  The final operation persists the full in-memory table.  (The
original claim — save after each item, losing at most the in-flight item —
is false; see the counterexample.) -/
theorem c9_save_once_at_end_amended (papers redditPosts : List Pipeline.ProcessedItem)
    (w0 : Pipeline.World) (k : Nat)
    (hk : k ≤ papers.length + redditPosts.length) :
    (Pipeline.applyOps w0 ((Pipeline.runOps papers redditPosts).take k)).disk =
      w0.disk ∧
    (Pipeline.applyOps w0 (Pipeline.runOps papers redditPosts)).disk =
      some (PaperLedger.saveRecords
        (Pipeline.applyOps w0
          (papers.map Pipeline.RunOp.addItem ++
            redditPosts.map Pipeline.RunOp.addItem)).mem) := by
  constructor
  · apply Pipeline.applyOps_addItems_disk
    intro op hop
    have hsub : op ∈ papers.map Pipeline.RunOp.addItem ++
        redditPosts.map Pipeline.RunOp.addItem := by
      have hlen : k ≤ (papers.map Pipeline.RunOp.addItem ++
          redditPosts.map Pipeline.RunOp.addItem).length := by
        simp [hk]
      have htake : ((papers.map Pipeline.RunOp.addItem ++
            redditPosts.map Pipeline.RunOp.addItem) ++
            [Pipeline.RunOp.saveLedger]).take k =
          (papers.map Pipeline.RunOp.addItem ++
            redditPosts.map Pipeline.RunOp.addItem).take k :=
        List.take_append_of_le_length hlen
      rw [Pipeline.runOps] at hop
      rw [htake] at hop
      exact (List.take_subset _ _) hop
    rcases List.mem_append.mp hsub with hmem | hmem <;>
      · obtain ⟨it, _, rfl⟩ := List.mem_map.mp hmem
        exact ⟨it, rfl⟩
  · rw [Pipeline.runOps, Pipeline.applyOps, List.foldl_append]
    rfl

/-- A second processed item with canonical_id `"id2"`. -/
def id2Dict : PaperDict :=
  fun k => if k = "canonical_id" then some (.vstr "id2") else none

/-- The first processed item of the counterexample run. -/
def itemA : Pipeline.ProcessedItem := ⟨id1Dict, "tA", "m", "a1", "p1", "l1"⟩

/-- The second processed item of the counterexample run. -/
def itemB : Pipeline.ProcessedItem := ⟨id2Dict, "tB", "m", "a2", "p2", "l2"⟩

/-- The world at the start of the counterexample run: empty in-memory
ledger, an (empty) table already persisted on disk. -/
def w0 : Pipeline.World := ⟨PaperLedger.State.empty, some []⟩

/-- C9 counterexample: in a run processing two items, after item A's
processing completed (its `add_entry` ran) the pipeline moves on to item B
with no intervening save; crashing at that point (prefix of length 2 of the
run's operations) leaves the disk exactly as before the run — item A's
completed entry is lost, contradicting "a crash mid-run loses at most the
single in-flight item and never any previously completed item's ledger
entry". -/
theorem c9_lost_completed_item_counterexample :
    (Pipeline.runOps [itemA, itemB] []).take 2 =
      [Pipeline.RunOp.addItem itemA, Pipeline.RunOp.addItem itemB] ∧
    (Pipeline.applyOps w0 ((Pipeline.runOps [itemA, itemB] []).take 1)).mem.processed_ids =
      [.vstr "id1"] ∧
    (Pipeline.applyOps w0 ((Pipeline.runOps [itemA, itemB] []).take 2)).disk =
      some [] :=
  ⟨rfl, rfl, rfl⟩

/-- Witness for the amended C9 at a concrete two-item run with crash
point 1. -/
theorem c9_save_once_at_end_amended_witness :
    (Pipeline.applyOps w0 ((Pipeline.runOps [itemA, itemB] []).take 1)).disk =
      w0.disk ∧
    (Pipeline.applyOps w0 (Pipeline.runOps [itemA, itemB] [])).disk =
      some (PaperLedger.saveRecords
        (Pipeline.applyOps w0
          ([itemA, itemB].map Pipeline.RunOp.addItem ++
            List.map Pipeline.RunOp.addItem [])).mem) :=
  c9_save_once_at_end_amended [itemA, itemB] [] w0 1 (by decide)

/-! ## Normalisation: character-class facts -/

namespace Normalise

theorem nfdTable_keys_range : ∀ p ∈ nfdTable, 0xc0 ≤ p.1 ∧ p.1 ≤ 0xff := by
  decide

theorem nfdChar_eq_self {c : Char} (h : ∀ p ∈ nfdTable, p.1 ≠ c.toNat) :
    nfdChar c = [c] := by
  have hnone : nfdTable.find? (fun p => p.1 == c.toNat) = none := by
    rw [List.find?_eq_none]
    intro p hp
    simpa using h p hp
  simp only [nfdChar, hnone]

theorem nfdChar_eq_self_of_small {c : Char} (h : c.toNat < 0xc0) :
    nfdChar c = [c] := by
  apply nfdChar_eq_self
  intro p hp
  have := nfdTable_keys_range p hp
  omega

theorem isPySpace_toNat {c : Char} (h : isPySpace c = true) :
    c.toNat ∈ pySpaceCodes := by
  simpa [isPySpace] using h

theorem isAlnumLower_toNat {c : Char} (h : isAlnumLower c = true) :
    (97 ≤ c.toNat ∧ c.toNat ≤ 122) ∨ (48 ≤ c.toNat ∧ c.toNat ≤ 57) := by
  simpa [isAlnumLower] using h

theorem pyLower_eq_self {c : Char} (h : ¬(65 ≤ c.toNat ∧ c.toNat ≤ 90)) :
    pyLower c = c := by
  simp [pyLower, h]

theorem space_char_facts {c : Char} (h : isPySpace c = true) :
    nfdChar c = [c] ∧ isMn c = false ∧ pyLower c = c := by
  have hm := isPySpace_toNat h
  simp only [pySpaceCodes, List.mem_cons, List.not_mem_nil, or_false] at hm
  refine ⟨nfdChar_eq_self ?_, ?_, pyLower_eq_self ?_⟩
  · intro p hp
    have := nfdTable_keys_range p hp
    omega
  · simp only [isMn, decide_eq_false_iff_not, not_and]
    omega
  · omega

theorem alnum_char_facts {c : Char} (h : isAlnumLower c = true) :
    nfdChar c = [c] ∧ isMn c = false ∧ pyLower c = c ∧ isPySpace c = false := by
  have hm := isAlnumLower_toNat h
  refine ⟨nfdChar_eq_self_of_small (by omega), ?_, pyLower_eq_self (by omega), ?_⟩
  · simp only [isMn, decide_eq_false_iff_not, not_and]
    omega
  · simp only [isPySpace, pySpaceCodes, decide_eq_false_iff_not, List.mem_cons,
      List.not_mem_nil, or_false]
    omega

theorem isPySpace_space : isPySpace ' ' = true := by decide

theorem space_of_not_alnum {c : Char} (hmem : isAlnumLower c = true ∨ c = ' ') :
    isPySpace c = false → isAlnumLower c = true := by
  intro hs
  rcases hmem with h | rfl
  · exact h
  · rw [isPySpace_space] at hs
    exact Bool.noConfusion hs

theorem ne_space_of_not_pySpace {c : Char} (h : isPySpace c = false) : c ≠ ' ' := by
  intro he
  rw [he, isPySpace_space] at h
  exact Bool.noConfusion h

/-- The pipeline stages before whitespace collapsing: NFD, `Mn` removal,
lowercasing, removal of non-alphanumeric non-whitespace characters. -/
def preColl (l : List Char) : List Char :=
  removeNonAlnum (((nfd l).filter fun c => !isMn c).map pyLower)

theorem pipeline_eq_preColl (l : List Char) :
    pipeline l = pyStrip (collapseWs (preColl l)) := rfl

theorem preColl_append (l₁ l₂ : List Char) :
    preColl (l₁ ++ l₂) = preColl l₁ ++ preColl l₂ := by
  simp [preColl, removeNonAlnum, nfd]

theorem preColl_cons (c : Char) (l : List Char) :
    preColl (c :: l) = preColl [c] ++ preColl l := by
  have : c :: l = [c] ++ l := rfl
  rw [this, preColl_append]

theorem preColl_space {c : Char} (h : isPySpace c = true) : preColl [c] = [c] := by
  obtain ⟨hn, hm, hl⟩ := space_char_facts h
  simp [preColl, nfd, removeNonAlnum, hn, hm, hl, h]

theorem preColl_alnum {c : Char} (h : isAlnumLower c = true) : preColl [c] = [c] := by
  obtain ⟨hn, hm, hl, _⟩ := alnum_char_facts h
  simp [preColl, nfd, removeNonAlnum, hn, hm, hl, h]

theorem preColl_mn {c : Char} (h : ∀ d ∈ nfdChar c, isMn d = true) :
    preColl [c] = [] := by
  have : (nfd [c]).filter (fun c => !isMn c) = [] := by
    rw [List.filter_eq_nil]
    intro d hd
    simp only [nfd, List.flatMap_cons, List.flatMap_nil, List.append_nil] at hd
    simp [h d hd]
  simp [preColl, this, removeNonAlnum]

theorem preColl_removed {c : Char} (hn : nfdChar c = [c]) (hm : isMn c = false)
    (ha : isAlnumLower (pyLower c) = false) (hs : isPySpace (pyLower c) = false) :
    preColl [c] = [] := by
  simp [preColl, nfd, removeNonAlnum, hn, hm, ha, hs]

/-- The scanner flag of `collapseWsAux` after consuming a list: whether the
last consumed character was whitespace (the initial flag if none was). -/
def collapseFlagAfter : Bool → List Char → Bool
  | b, [] => b
  | _, c :: rest => collapseFlagAfter (isPySpace c) rest

theorem collapseWsAux_append (P Q : List Char) : ∀ b,
    collapseWsAux b (P ++ Q) =
      collapseWsAux b P ++ collapseWsAux (collapseFlagAfter b P) Q := by
  induction P with
  | nil => intro b; rfl
  | cons c rest ih =>
    intro b
    by_cases hc : isPySpace c = true
    · cases b <;>
        simp only [List.cons_append, collapseWsAux, collapseFlagAfter, hc,
          if_true, List.append_eq, ih, List.nil_append] <;> rfl
    · rw [Bool.not_eq_true] at hc
      cases b <;>
        simp only [List.cons_append, collapseWsAux, collapseFlagAfter, hc,
          Bool.false_eq_true, if_false, List.append_eq, ih, List.cons_append]

theorem pyStrip_cons_space {c : Char} (l : List Char) (h : isPySpace c = true) :
    pyStrip (c :: l) = pyStrip l := by
  simp [pyStrip, List.dropWhile_cons, h]

theorem head?_dropWhile (p : Char → Bool) (l : List Char) :
    ∀ c, (l.dropWhile p).head? = some c → p c = false := by
  induction l with
  | nil => intro c h; simp [List.dropWhile] at h
  | cons a rest ih =>
    intro c h
    rw [List.dropWhile_cons] at h
    by_cases ha : p a = true
    · rw [if_pos ha] at h
      exact ih c h
    · rw [Bool.not_eq_true] at ha
      rw [if_neg (by simp [ha])] at h
      simp only [List.head?_cons, Option.some.injEq] at h
      rw [← h]
      exact ha

theorem dropWhile_eq_self_of_head (p : Char → Bool) (l : List Char)
    (h : ∀ c, l.head? = some c → p c = false) : l.dropWhile p = l := by
  cases l with
  | nil => rfl
  | cons a rest =>
    rw [List.dropWhile_cons, if_neg (by simp [h a rfl])]

theorem pyStrip_eq_self (l : List Char)
    (hhead : ∀ c, l.head? = some c → isPySpace c = false)
    (hlast : ∀ c, l.getLast? = some c → isPySpace c = false) : pyStrip l = l := by
  unfold pyStrip
  rw [dropWhile_eq_self_of_head _ _ hhead,
    dropWhile_eq_self_of_head _ _ (by rw [List.head?_reverse]; exact hlast),
    List.reverse_reverse]

theorem pyStrip_append_space {x : Char} (Y : List Char) (h : isPySpace x = true) :
    pyStrip (Y ++ [x]) = pyStrip Y := by
  unfold pyStrip
  rw [List.dropWhile_append]
  by_cases hY : (Y.dropWhile isPySpace).isEmpty = true
  · rw [if_pos hY]
    rw [List.isEmpty_iff] at hY
    rw [hY]
    simp [List.dropWhile, h]
  · rw [if_neg hY]
    rw [List.reverse_append]
    simp only [List.reverse_singleton, List.singleton_append, List.dropWhile_cons,
      h, if_true]

theorem pyStrip_collapse_true_eq_false (l : List Char) :
    pyStrip (collapseWsAux true l) = pyStrip (collapseWsAux false l) := by
  cases l with
  | nil => rfl
  | cons c rest =>
    by_cases hc : isPySpace c = true
    · simp only [collapseWsAux, hc, if_true, Bool.false_eq_true, if_false]
      rw [pyStrip_cons_space _ isPySpace_space]
    · rw [Bool.not_eq_true] at hc
      simp only [collapseWsAux, hc, Bool.false_eq_true, if_false]

theorem collapseWsAux_outChars (l : List Char)
    (hl : ∀ c ∈ l, (isAlnumLower c || isPySpace c) = true) :
    ∀ (b : Bool), ∀ c ∈ collapseWsAux b l, isAlnumLower c = true ∨ c = ' ' := by
  induction l with
  | nil => intro b c h; simp [collapseWsAux] at h
  | cons a rest ih =>
    intro b c h
    have hrest : ∀ c ∈ rest, (isAlnumLower c || isPySpace c) = true :=
      fun d hd => hl d (List.mem_cons_of_mem a hd)
    by_cases ha : isPySpace a = true
    · cases b with
      | true =>
        simp only [collapseWsAux, ha, if_true] at h
        exact ih hrest true c h
      | false =>
        simp only [collapseWsAux, ha, if_true, Bool.false_eq_true, if_false] at h
        rcases List.mem_cons.mp h with rfl | h
        · exact Or.inr rfl
        · exact ih hrest true c h
    · rw [Bool.not_eq_true] at ha
      simp only [collapseWsAux, ha, Bool.false_eq_true, if_false] at h
      rcases List.mem_cons.mp h with rfl | h
      · refine Or.inl ?_
        have hor := hl c (List.mem_cons_self c rest)
        rcases Bool.or_eq_true_iff.mp hor with h1 | h2
        · exact h1
        · rw [ha] at h2
          exact Bool.noConfusion h2
      · exact ih hrest false c h

theorem head?_collapseWsAux_true (l : List Char) :
    ∀ c, (collapseWsAux true l).head? = some c → isPySpace c = false := by
  induction l with
  | nil => intro c h; simp [collapseWsAux] at h
  | cons a rest ih =>
    intro c h
    by_cases ha : isPySpace a = true
    · simp only [collapseWsAux, ha, if_true] at h
      exact ih c h
    · rw [Bool.not_eq_true] at ha
      simp only [collapseWsAux, ha, Bool.false_eq_true, if_false,
        List.head?_cons, Option.some.injEq] at h
      rw [← h]
      exact ha

theorem chain'_collapseWsAux (l : List Char) :
    ∀ b : Bool, List.Chain' (fun a b => ¬(a = ' ' ∧ b = ' ')) (collapseWsAux b l) := by
  induction l with
  | nil => intro _; exact List.chain'_nil
  | cons a rest ih =>
    intro b
    by_cases ha : isPySpace a = true
    · cases b with
      | true => simpa only [collapseWsAux, ha, if_true] using ih true
      | false =>
        simp only [collapseWsAux, ha, if_true, Bool.false_eq_true, if_false]
        refine List.Chain'.cons' (ih true) ?_
        intro y hy hcon
        exact (ne_space_of_not_pySpace (head?_collapseWsAux_true rest y hy)) hcon.2
    · rw [Bool.not_eq_true] at ha
      simp only [collapseWsAux, ha, Bool.false_eq_true, if_false]
      refine List.Chain'.cons' (ih false) ?_
      intro y _ hcon
      exact (ne_space_of_not_pySpace ha) hcon.1

theorem pyStrip_prefix_dropWhile (l : List Char) :
    pyStrip l <+: l.dropWhile isPySpace := by
  have h : (l.dropWhile isPySpace).reverse.dropWhile isPySpace <:+
      (l.dropWhile isPySpace).reverse := List.dropWhile_suffix _
  have h2 : ((l.dropWhile isPySpace).reverse.dropWhile isPySpace).reverse <+:
      ((l.dropWhile isPySpace).reverse).reverse := List.reverse_prefix.mpr h
  rw [List.reverse_reverse] at h2
  exact h2

theorem pyStrip_mid (l : List Char) : pyStrip l <:+: l :=
  List.IsInfix.trans (List.IsPrefix.isInfix (pyStrip_prefix_dropWhile l))
    (List.IsSuffix.isInfix (List.dropWhile_suffix _))

theorem head?_pyStrip (l : List Char) :
    ∀ c, (pyStrip l).head? = some c → isPySpace c = false := by
  intro c h
  obtain ⟨t, ht⟩ := pyStrip_prefix_dropWhile l
  apply head?_dropWhile isPySpace l c
  rw [← ht]
  cases hS : pyStrip l with
  | nil => rw [hS] at h; exact Option.noConfusion h
  | cons a s =>
    rw [hS] at h
    simp only [List.head?_cons, Option.some.injEq] at h
    subst h
    rfl

theorem getLast?_pyStrip (l : List Char) :
    ∀ c, (pyStrip l).getLast? = some c → isPySpace c = false := by
  intro c h
  unfold pyStrip at h
  rw [List.getLast?_reverse] at h
  exact head?_dropWhile _ _ c h

theorem collapseWsAux_eq_self (l : List Char)
    (hout : ∀ c ∈ l, isAlnumLower c = true ∨ c = ' ')
    (hch : List.Chain' (fun a b => ¬(a = ' ' ∧ b = ' ')) l) :
    collapseWsAux false l = l ∧
    ((∀ c, l.head? = some c → c ≠ ' ') → collapseWsAux true l = l) := by
  induction l with
  | nil => exact ⟨rfl, fun _ => rfl⟩
  | cons a rest ih =>
    have hout' : ∀ c ∈ rest, isAlnumLower c = true ∨ c = ' ' :=
      fun d hd => hout d (List.mem_cons_of_mem a hd)
    have hrel := (List.chain'_cons'.mp hch).1
    have hch' := (List.chain'_cons'.mp hch).2
    obtain ⟨ih1, ih2⟩ := ih hout' hch'
    rcases hout a (List.mem_cons_self a rest) with ha | rfl
    · have has : isPySpace a = false := (alnum_char_facts ha).2.2.2
      constructor
      · simp only [collapseWsAux, has, Bool.false_eq_true, if_false, ih1]
      · intro _
        simp only [collapseWsAux, has, Bool.false_eq_true, if_false, ih1]
    · have h2 : collapseWsAux true rest = rest := by
        apply ih2
        intro c hc he
        exact (hrel c hc) ⟨rfl, he⟩
      constructor
      · simp only [collapseWsAux, isPySpace_space, if_true, Bool.false_eq_true,
          if_false, h2]
      · intro hhead
        exact absurd rfl (hhead ' ' rfl)

theorem flatMap_eq_self_of (l : List Char) (f : Char → List Char)
    (h : ∀ c ∈ l, f c = [c]) : l.flatMap f = l := by
  induction l with
  | nil => rfl
  | cons a rest ih =>
    rw [List.flatMap_cons, h a (List.mem_cons_self a rest),
      ih (fun d hd => h d (List.mem_cons_of_mem a hd))]
    rfl

theorem pipeline_canonical (l : List Char) :
    (∀ c ∈ pipeline l, isAlnumLower c = true ∨ c = ' ') ∧
    List.Chain' (fun a b => ¬(a = ' ' ∧ b = ' ')) (pipeline l) ∧
    (∀ c, (pipeline l).head? = some c → isPySpace c = false) ∧
    (∀ c, (pipeline l).getLast? = some c → isPySpace c = false) := by
  rw [pipeline_eq_preColl]
  have hkeep : ∀ c ∈ preColl l, (isAlnumLower c || isPySpace c) = true := by
    intro c hc
    unfold preColl removeNonAlnum at hc
    exact (List.mem_filter.mp hc).2
  refine ⟨?_, ?_, head?_pyStrip _, getLast?_pyStrip _⟩
  · intro c hc
    have hmem : c ∈ collapseWs (preColl l) :=
      (pyStrip_mid _).sublist.subset hc
    exact collapseWsAux_outChars _ hkeep false c hmem
  · exact List.Chain'.infix (chain'_collapseWsAux _ false) (pyStrip_mid _)

theorem pipeline_fixed (m : List Char)
    (hout : ∀ c ∈ m, isAlnumLower c = true ∨ c = ' ')
    (hch : List.Chain' (fun a b => ¬(a = ' ' ∧ b = ' ')) m)
    (hhead : ∀ c, m.head? = some c → isPySpace c = false)
    (hlast : ∀ c, m.getLast? = some c → isPySpace c = false) :
    pipeline m = m := by
  have hfacts : ∀ c ∈ m, nfdChar c = [c] ∧ isMn c = false ∧ pyLower c = c ∧
      (isAlnumLower c || isPySpace c) = true := by
    intro c hc
    rcases hout c hc with ha | rfl
    · obtain ⟨h1, h2, h3, _⟩ := alnum_char_facts ha
      exact ⟨h1, h2, h3, by rw [ha]; rfl⟩
    · obtain ⟨h1, h2, h3⟩ := space_char_facts isPySpace_space
      exact ⟨h1, h2, h3, by rw [isPySpace_space]; simp⟩
  have hfilter : List.filter (fun c => !isMn c) m = m :=
    List.filter_eq_self.mpr (fun c hc => by simp [(hfacts c hc).2.1])
  have hmap : List.map pyLower m = m := by
    rw [List.map_congr_left (fun c hc => (hfacts c hc).2.2.1)]
    exact List.map_id m
  have hpre : preColl m = m := by
    unfold preColl nfd removeNonAlnum
    rw [flatMap_eq_self_of m nfdChar (fun c hc => (hfacts c hc).1), hfilter, hmap]
    exact List.filter_eq_self.mpr (fun c hc => (hfacts c hc).2.2.2)
  rw [pipeline_eq_preColl, hpre]
  unfold collapseWs
  rw [(collapseWsAux_eq_self m hout hch).1]
  exact pyStrip_eq_self m hhead hlast

theorem pipeline_idempotent (l : List Char) :
    pipeline (pipeline l) = pipeline l := by
  obtain ⟨h1, h2, h3, h4⟩ := pipeline_canonical l
  exact pipeline_fixed _ h1 h2 h3 h4

/-- Two characters differ only by ASCII letter case (or are equal). -/
def caseEq (a b : Char) : Prop :=
  a = b ∨ (a.toNat + 32 = b.toNat ∧ 65 ≤ a.toNat ∧ a.toNat ≤ 90) ∨
    (b.toNat + 32 = a.toNat ∧ 65 ≤ b.toNat ∧ b.toNat ≤ 90)

theorem pyLower_upper {a b : Char} (h65 : 65 ≤ a.toNat) (h90 : a.toNat ≤ 90)
    (hb : a.toNat + 32 = b.toNat) : pyLower a = b := by
  unfold pyLower
  rw [if_pos ⟨h65, h90⟩, hb, Char.ofNat_toNat]

theorem caseEq_pyLower {a b : Char} (h : caseEq a b) : pyLower a = pyLower b := by
  rcases h with rfl | ⟨hab, h1, h2⟩ | ⟨hba, h1, h2⟩
  · rfl
  · rw [pyLower_upper h1 h2 hab, pyLower_eq_self (by omega)]
  · rw [pyLower_upper h1 h2 hba, pyLower_eq_self (by omega)]

theorem caseEq_nfdChar {a b : Char} (h : caseEq a b) :
    List.Forall₂ caseEq (nfdChar a) (nfdChar b) := by
  rcases h with rfl | ⟨hab, h1, h2⟩ | ⟨hba, h1, h2⟩
  · exact List.forall₂_same.mpr (fun x _ => Or.inl rfl)
  · rw [nfdChar_eq_self_of_small (by omega), nfdChar_eq_self_of_small (by omega)]
    exact List.Forall₂.cons (Or.inr (Or.inl ⟨hab, h1, h2⟩)) List.Forall₂.nil
  · rw [nfdChar_eq_self_of_small (by omega), nfdChar_eq_self_of_small (by omega)]
    exact List.Forall₂.cons (Or.inr (Or.inr ⟨hba, h1, h2⟩)) List.Forall₂.nil

theorem caseEq_isMn {a b : Char} (h : caseEq a b) : isMn a = isMn b := by
  rcases h with rfl | ⟨_, h1, h2⟩ | ⟨_, h1, h2⟩
  · rfl
  · have ha : isMn a = false := by
      simp only [isMn, decide_eq_false_iff_not, not_and]; omega
    have hb : isMn b = false := by
      simp only [isMn, decide_eq_false_iff_not, not_and]; omega
    rw [ha, hb]
  · have ha : isMn a = false := by
      simp only [isMn, decide_eq_false_iff_not, not_and]; omega
    have hb : isMn b = false := by
      simp only [isMn, decide_eq_false_iff_not, not_and]; omega
    rw [ha, hb]

theorem forall₂_flatMap {R : Char → Char → Prop} (f : Char → List Char)
    (hf : ∀ a b, R a b → List.Forall₂ R (f a) (f b)) :
    ∀ {l₁ l₂ : List Char}, List.Forall₂ R l₁ l₂ →
      List.Forall₂ R (l₁.flatMap f) (l₂.flatMap f) := by
  intro l₁ l₂ h
  induction h with
  | nil => simpa using List.Forall₂.nil
  | cons hab _ ih =>
    rw [List.flatMap_cons, List.flatMap_cons]
    exact List.rel_append (hf _ _ hab) ih

theorem forall₂_filter {R : Char → Char → Prop} (p : Char → Bool)
    (hp : ∀ a b, R a b → p a = p b) :
    ∀ {l₁ l₂ : List Char}, List.Forall₂ R l₁ l₂ →
      List.Forall₂ R (l₁.filter p) (l₂.filter p) := by
  intro l₁ l₂ h
  induction h with
  | nil => simpa using List.Forall₂.nil
  | @cons a b u v hab _ ih =>
    rw [List.filter_cons, List.filter_cons, ← hp _ _ hab]
    by_cases hpa : p a = true
    · rw [if_pos hpa, if_pos hpa]
      exact List.Forall₂.cons hab ih
    · rw [if_neg hpa, if_neg hpa]
      exact ih

theorem forall₂_map_eq {R : Char → Char → Prop} (f : Char → Char)
    (hf : ∀ a b, R a b → f a = f b) :
    ∀ {l₁ l₂ : List Char}, List.Forall₂ R l₁ l₂ → l₁.map f = l₂.map f := by
  intro l₁ l₂ h
  induction h with
  | nil => rfl
  | cons hab _ ih => rw [List.map_cons, List.map_cons, hf _ _ hab, ih]

theorem preColl_caseEq {s t : List Char} (h : List.Forall₂ caseEq s t) :
    preColl s = preColl t := by
  unfold preColl nfd
  have h1 := forall₂_flatMap nfdChar (fun a b hab => caseEq_nfdChar hab) h
  have h2 := forall₂_filter (fun c => !isMn c)
    (fun a b hab => by simp only []; rw [caseEq_isMn hab]) h1
  have h3 := forall₂_map_eq pyLower (fun a b hab => caseEq_pyLower hab) h2
  rw [h3]

theorem pipeline_insert_dropped (t₁ t₂ : List Char) (c : Char)
    (h : preColl [c] = []) :
    pipeline (t₁ ++ c :: t₂) = pipeline (t₁ ++ t₂) := by
  rw [pipeline_eq_preColl, pipeline_eq_preColl]
  have he : t₁ ++ c :: t₂ = t₁ ++ [c] ++ t₂ := by simp
  rw [he, preColl_append, preColl_append, preColl_append, h, List.append_nil]

theorem collapse_congr_mid (P₁ P₂ M₁ M₂ : List Char)
    (hout : ∀ f : Bool, collapseWsAux f M₁ = collapseWsAux f M₂)
    (hflag : ∀ f : Bool, collapseFlagAfter f M₁ = collapseFlagAfter f M₂) :
    collapseWs (P₁ ++ M₁ ++ P₂) = collapseWs (P₁ ++ M₂ ++ P₂) := by
  unfold collapseWs
  rw [List.append_assoc, List.append_assoc, collapseWsAux_append,
    collapseWsAux_append, collapseWsAux_append, collapseWsAux_append,
    hout, hflag]

theorem collapse_ws_pair {c : Char} (hs : isPySpace c = true) :
    (∀ f : Bool, collapseWsAux f [c, c] = collapseWsAux f [c]) ∧
    (∀ f : Bool, collapseFlagAfter f [c, c] = collapseFlagAfter f [c]) := by
  constructor
  · intro f
    cases f <;> simp [collapseWsAux, hs]
  · intro f
    simp [collapseFlagAfter]

theorem collapse_ws_kind {c : Char} (hs : isPySpace c = true) :
    (∀ f : Bool, collapseWsAux f [c] = collapseWsAux f [' ']) ∧
    (∀ f : Bool, collapseFlagAfter f [c] = collapseFlagAfter f [' ']) := by
  constructor
  · intro f
    cases f <;> simp [collapseWsAux, hs, isPySpace_space]
  · intro f
    simp [collapseFlagAfter, hs, isPySpace_space]

theorem data_mk (l : List Char) : (String.mk l).data = l := rfl

theorem pipeline_ws_dup (t₁ t₂ : List Char) (c : Char) (hs : isPySpace c = true) :
    pipeline (t₁ ++ c :: c :: t₂) = pipeline (t₁ ++ c :: t₂) := by
  rw [pipeline_eq_preColl, pipeline_eq_preColl]
  have l1 : preColl (t₁ ++ c :: c :: t₂) = preColl t₁ ++ [c, c] ++ preColl t₂ := by
    have he : t₁ ++ c :: c :: t₂ = t₁ ++ ([c] ++ ([c] ++ t₂)) := by simp
    rw [he, preColl_append, preColl_append, preColl_append, preColl_space hs]
    simp
  have l2 : preColl (t₁ ++ c :: t₂) = preColl t₁ ++ [c] ++ preColl t₂ := by
    have he : t₁ ++ c :: t₂ = t₁ ++ ([c] ++ t₂) := by simp
    rw [he, preColl_append, preColl_append, preColl_space hs]
    simp
  rw [l1, l2]
  exact congrArg pyStrip (collapse_congr_mid _ _ _ _ (collapse_ws_pair hs).1
    (collapse_ws_pair hs).2)

theorem pipeline_ws_kind (t₁ t₂ : List Char) (c : Char) (hs : isPySpace c = true) :
    pipeline (t₁ ++ c :: t₂) = pipeline (t₁ ++ ' ' :: t₂) := by
  rw [pipeline_eq_preColl, pipeline_eq_preColl]
  have l1 : preColl (t₁ ++ c :: t₂) = preColl t₁ ++ [c] ++ preColl t₂ := by
    have he : t₁ ++ c :: t₂ = t₁ ++ ([c] ++ t₂) := by simp
    rw [he, preColl_append, preColl_append, preColl_space hs]
    simp
  have l2 : preColl (t₁ ++ ' ' :: t₂) = preColl t₁ ++ [' '] ++ preColl t₂ := by
    have he : t₁ ++ ' ' :: t₂ = t₁ ++ ([' '] ++ t₂) := by simp
    rw [he, preColl_append, preColl_append, preColl_space isPySpace_space]
    simp
  rw [l1, l2]
  exact congrArg pyStrip (collapse_congr_mid _ _ _ _ (collapse_ws_kind hs).1
    (collapse_ws_kind hs).2)

theorem pipeline_ws_leading (t : List Char) (c : Char) (hs : isPySpace c = true) :
    pipeline (c :: t) = pipeline t := by
  rw [pipeline_eq_preColl, pipeline_eq_preColl, preColl_cons, preColl_space hs]
  unfold collapseWs
  rw [collapseWsAux_append]
  have h1 : collapseWsAux false [c] = [' '] := by simp [collapseWsAux, hs]
  have h2 : collapseFlagAfter false [c] = true := by
    simp [collapseFlagAfter, hs]
  rw [h1, h2, List.singleton_append, pyStrip_cons_space _ isPySpace_space]
  exact pyStrip_collapse_true_eq_false _

theorem pipeline_ws_trailing (t : List Char) (c : Char) (hs : isPySpace c = true) :
    pipeline (t ++ [c]) = pipeline t := by
  rw [pipeline_eq_preColl, pipeline_eq_preColl, preColl_append, preColl_space hs]
  unfold collapseWs
  rw [collapseWsAux_append]
  cases hf : collapseFlagAfter false (preColl t) with
  | false =>
    have h1 : collapseWsAux false [c] = [' '] := by simp [collapseWsAux, hs]
    rw [h1]
    exact pyStrip_append_space _ isPySpace_space
  | true =>
    have h1 : collapseWsAux true [c] = [] := by simp [collapseWsAux, hs]
    rw [h1, List.append_nil]

theorem normalise_title_eq_pipeline (s : String) :
    normalise_title s = String.mk (pipeline s.data) := by
  unfold normalise_title
  by_cases h : s = ""
  · rw [if_pos h, h]
    rfl
  · rw [if_neg h]

end Normalise

/-! ## Claim theorems: title normalisation (C5) -/

/-- C5 (amended): `Normalise.normalise_title` is idempotent, and it is invariant under
ASCII case changes (pointwise case-equivalent titles normalise identically),
under inserting or removing combining diacritical marks (characters whose
NFD decomposition consists of `Mn` marks), under deleting punctuation —
Latin-1-range characters (code point below U+0100, the range over which the
modelled decomposition data is complete) that have no canonical
decomposition, are not combining marks, and whose lowercase form is neither
alphanumeric nor whitespace; this covers all ASCII and Latin-1
punctuation — and under whitespace variation of existing separators:
lengthening a whitespace run, changing the kind of a whitespace
character, and adding/removing leading or trailing whitespace.  (The
original claim's blanket "punctuation differences" fails: punctuation is
DELETED, not treated as a separator, so replacing a hyphen by a space
changes the result — see the counterexample.) -/
theorem c5_normalise_idempotent_invariant_amended :
    (∀ s : String, Normalise.normalise_title (Normalise.normalise_title s) = Normalise.normalise_title s) ∧
    (∀ s t : String, List.Forall₂ Normalise.caseEq s.data t.data →
      Normalise.normalise_title s = Normalise.normalise_title t) ∧
    (∀ (t₁ t₂ : List Char) (c : Char),
      (∀ d ∈ Normalise.nfdChar c, Normalise.isMn d = true) →
      Normalise.normalise_title (String.mk (t₁ ++ c :: t₂)) =
        Normalise.normalise_title (String.mk (t₁ ++ t₂))) ∧
    (∀ (t₁ t₂ : List Char) (c : Char), c.toNat < 0x100 →
      Normalise.nfdChar c = [c] → Normalise.isMn c = false →
      Normalise.isAlnumLower (Normalise.pyLower c) = false →
      Normalise.isPySpace (Normalise.pyLower c) = false →
      Normalise.normalise_title (String.mk (t₁ ++ c :: t₂)) =
        Normalise.normalise_title (String.mk (t₁ ++ t₂))) ∧
    (∀ (t₁ t₂ : List Char) (c : Char), Normalise.isPySpace c = true →
      Normalise.normalise_title (String.mk (t₁ ++ c :: c :: t₂)) =
        Normalise.normalise_title (String.mk (t₁ ++ c :: t₂)) ∧
      Normalise.normalise_title (String.mk (t₁ ++ c :: t₂)) =
        Normalise.normalise_title (String.mk (t₁ ++ ' ' :: t₂))) ∧
    (∀ (t : List Char) (c : Char), Normalise.isPySpace c = true →
      Normalise.normalise_title (String.mk (c :: t)) = Normalise.normalise_title (String.mk t) ∧
      Normalise.normalise_title (String.mk (t ++ [c])) = Normalise.normalise_title (String.mk t)) ∧
    Normalise.normalise_title "Café  Splatting" = Normalise.normalise_title "cafe splatting" := by
  refine ⟨?_, ?_, ?_, ?_, ?_, ?_, by decide⟩
  · intro s
    calc Normalise.normalise_title (Normalise.normalise_title s)
        = String.mk (Normalise.pipeline (Normalise.normalise_title s).data) :=
          Normalise.normalise_title_eq_pipeline _
      _ = String.mk (Normalise.pipeline (Normalise.pipeline s.data)) := by
          rw [Normalise.normalise_title_eq_pipeline s, Normalise.data_mk]
      _ = String.mk (Normalise.pipeline s.data) := by
          rw [Normalise.pipeline_idempotent]
      _ = Normalise.normalise_title s := (Normalise.normalise_title_eq_pipeline s).symm
  · intro s t h
    rw [Normalise.normalise_title_eq_pipeline, Normalise.normalise_title_eq_pipeline,
      Normalise.pipeline_eq_preColl, Normalise.pipeline_eq_preColl,
      Normalise.preColl_caseEq h]
  · intro t₁ t₂ c hc
    rw [Normalise.normalise_title_eq_pipeline, Normalise.normalise_title_eq_pipeline,
      Normalise.data_mk, Normalise.data_mk,
      Normalise.pipeline_insert_dropped t₁ t₂ c (Normalise.preColl_mn hc)]
  · intro t₁ t₂ c _ h1 h2 h3 h4
    rw [Normalise.normalise_title_eq_pipeline, Normalise.normalise_title_eq_pipeline,
      Normalise.data_mk, Normalise.data_mk,
      Normalise.pipeline_insert_dropped t₁ t₂ c
        (Normalise.preColl_removed h1 h2 h3 h4)]
  · intro t₁ t₂ c hs
    constructor
    · rw [Normalise.normalise_title_eq_pipeline, Normalise.normalise_title_eq_pipeline,
        Normalise.data_mk, Normalise.data_mk, Normalise.pipeline_ws_dup t₁ t₂ c hs]
    · rw [Normalise.normalise_title_eq_pipeline, Normalise.normalise_title_eq_pipeline,
        Normalise.data_mk, Normalise.data_mk, Normalise.pipeline_ws_kind t₁ t₂ c hs]
  · intro t c hs
    constructor
    · rw [Normalise.normalise_title_eq_pipeline, Normalise.normalise_title_eq_pipeline,
        Normalise.data_mk, Normalise.data_mk, Normalise.pipeline_ws_leading t c hs]
    · rw [Normalise.normalise_title_eq_pipeline, Normalise.normalise_title_eq_pipeline,
        Normalise.data_mk, Normalise.data_mk, Normalise.pipeline_ws_trailing t c hs]

/-- C5 counterexample: `"3D-Gaussian-Splatting"` and
`"3D Gaussian Splatting"` differ only by punctuation (hyphens in place of
spaces), yet they do NOT normalise identically: the normaliser deletes
punctuation instead of treating it as a separator. -/
theorem c5_punctuation_counterexample :
    Normalise.normalise_title "3D-Gaussian-Splatting" = "3dgaussiansplatting" ∧
    Normalise.normalise_title "3D Gaussian Splatting" = "3d gaussian splatting" ∧
    Normalise.normalise_title "3D-Gaussian-Splatting" ≠
      Normalise.normalise_title "3D Gaussian Splatting" := by
  refine ⟨by decide, by decide, ?_⟩
  intro h
  rw [show Normalise.normalise_title "3D-Gaussian-Splatting" = "3dgaussiansplatting" by decide,
    show Normalise.normalise_title "3D Gaussian Splatting" = "3d gaussian splatting" by decide] at h
  exact absurd h (by decide)

/-- Witness for the amended C5: deleting a concrete punctuation character
(`"!"`) from a concrete title does not change the normalisation. -/
theorem c5_normalise_amended_witness :
    Normalise.normalise_title (String.mk (['a', 'b'] ++ '!' :: [' ', 'c'])) =
      Normalise.normalise_title (String.mk (['a', 'b'] ++ [' ', 'c'])) :=
  c5_normalise_idempotent_invariant_amended.2.2.2.1 ['a', 'b'] [' ', 'c'] '!'
    (by decide) (by decide) (by decide) (by decide) (by decide)

end LitAgent
